import Mathlib

/-!
Verification of the Nexus backtesting engine core against its specification.

The C++ sources are shallowly embedded: `double` is modelled as `ℚ` (all
arithmetic in the verified scenarios is exact), atomics become plain fields
with sequential state passing (the CAS retry loops of the source always
succeed in a single-threaded execution, which is the setting of the claims),
and maps become association lists.  Each definition mirrors one function of
the C++ source, keeping its name and its control flow.
-/

namespace Nexus

/-- The floating-point tolerance `1e-8` used throughout the C++ sources. -/
def eps : ℚ := 1 / 100000000

/-! ## Position (src/backend/cpp/position/position.h)

`Position` keeps the atomic fields of the C++ struct; `symbol_` and
`entry_time_` play no role in any claim and are dropped.  Field names keep
the source names without the trailing underscore. -/

structure Position where
  quantity : ℚ
  entry_price : ℚ
  current_price : ℚ
  unrealized_pnl : ℚ
  realized_pnl : ℚ
deriving Repr, DecidableEq

/-- `Position(symbol, initial_quantity, initial_price)`: stores the quantity,
sets both entry and current price to `initial_price`, zero PnL. -/
def Position.mkNew (initial_quantity initial_price : ℚ) : Position :=
  { quantity := initial_quantity
    entry_price := initial_price
    current_price := initial_price
    unrealized_pnl := 0
    realized_pnl := 0 }

/-- `Position::is_long`: quantity strictly positive. -/
def Position.is_long (p : Position) : Prop := p.quantity > 0

instance (p : Position) : Decidable p.is_long := by unfold Position.is_long; infer_instance

/-- `Position::is_short`: quantity strictly negative. -/
def Position.is_short (p : Position) : Prop := p.quantity < 0

instance (p : Position) : Decidable p.is_short := by unfold Position.is_short; infer_instance

/-- `Position::is_flat`: `|quantity| < 1e-8`. -/
def Position.is_flat (p : Position) : Prop := |p.quantity| < eps

instance (p : Position) : Decidable p.is_flat := by unfold Position.is_flat; infer_instance

/-- `Position::get_market_value`: `|quantity * current_price|`. -/
def Position.get_market_value (p : Position) : ℚ := |p.quantity * p.current_price|

/-- `Position::update_pnl(latest_price)`: store the latest price; if
`|quantity| > 1e-8` recompute `unrealized = (latest - entry) * quantity`,
otherwise clear the unrealized PnL. -/
def Position.update_pnl (p : Position) (latest_price : ℚ) : Position :=
  let p1 := { p with current_price := latest_price }
  if |p1.quantity| > eps then
    { p1 with unrealized_pnl := (latest_price - p1.entry_price) * p1.quantity }
  else
    { p1 with unrealized_pnl := 0 }

/-- `Position::adjust_position(quantity_delta, trade_price)`.  Returns the
updated position together with the realized PnL of the trade (the C++
return value).  The body follows the source line by line; the CAS loop on
`quantity_` collapses to a single update in sequential execution. -/
def Position.adjust_position (p : Position) (quantity_delta trade_price : ℚ) :
    Position × ℚ :=
  let current_qty := p.quantity
  let current_entry := p.entry_price
  let new_qty := current_qty + quantity_delta
  let same_direction := current_qty * quantity_delta ≥ 0
  let position_closure := current_qty ≠ 0 ∧
      ((current_qty > 0 ∧ quantity_delta < 0) ∨ (current_qty < 0 ∧ quantity_delta > 0))
  let realized_pnl_from_trade :=
    if position_closure then
      (trade_price - current_entry) * (min |quantity_delta| |current_qty|) *
        (if current_qty > 0 then 1 else -1)
    else 0
  let p1 :=
    if position_closure then
      { p with realized_pnl := p.realized_pnl + realized_pnl_from_trade }
    else p
  if |new_qty| > eps then
    let new_entry :=
      if same_direction ∧ |new_qty| > |current_qty| then
        (current_qty * current_entry + quantity_delta * trade_price) / new_qty
      else current_entry
    let p2 := { p1 with quantity := new_qty, entry_price := new_entry }
    (p2.update_pnl p2.current_price, realized_pnl_from_trade)
  else
    ({ p1 with quantity := 0, unrealized_pnl := 0 }, realized_pnl_from_trade)

/-! ## Events (declared in core/event_types.h, used by the position manager) -/

/-- `TradeExecutionEvent`: the fields read by `PositionManager`. -/
structure TradeExecutionEvent where
  symbol : String
  quantity : ℚ
  price : ℚ
  commission : ℚ
  is_buy : Bool
deriving Repr, DecidableEq

/-- `MarketDataEvent`: the fields read by `PositionManager`. -/
structure MarketDataEvent where
  symbol : String
  close : ℚ
deriving Repr, DecidableEq

/-! ## PositionManager (src/backend/cpp/position/position_manager.{h,cpp}) -/

/-- The atomic fields of `PortfolioStatistics` that the claims touch. -/
structure PortfolioStatistics where
  total_equity : ℚ
  available_cash : ℚ
  total_market_value : ℚ
  total_unrealized_pnl : ℚ
  total_realized_pnl : ℚ
  total_positions : ℕ
  long_positions : ℕ
  short_positions : ℕ
deriving Repr, DecidableEq

/-- State of a `PositionManager`. -/
structure PositionManager where
  initial_capital : ℚ
  positions : List (String × Position)
  portfolio_stats : PortfolioStatistics
  cached_total_equity : ℚ
  equity_cache_valid : Bool
  equity_curve : List ℚ
  trade_history : List TradeExecutionEvent
deriving Repr, DecidableEq

/-- `PositionManager::PositionManager(initial_capital)`. -/
def PositionManager.mkNew (initial_capital : ℚ) : PositionManager :=
  { initial_capital := initial_capital
    positions := []
    portfolio_stats :=
      { total_equity := initial_capital
        available_cash := initial_capital
        total_market_value := 0
        total_unrealized_pnl := 0
        total_realized_pnl := 0
        total_positions := 0
        long_positions := 0
        short_positions := 0 }
    cached_total_equity := initial_capital
    equity_cache_valid := true
    equity_curve := [initial_capital]
    trade_history := [] }

/-- Lookup in the `positions_` map. -/
def PositionManager.findPosition (s : PositionManager) (symbol : String) :
    Option Position :=
  s.positions.lookup symbol

/-- Store (replace or insert) a position in the `positions_` map. -/
def setPos (l : List (String × Position)) (symbol : String) (p : Position) :
    List (String × Position) :=
  match l with
  | [] => [(symbol, p)]
  | (k, v) :: rest => if k = symbol then (k, p) :: rest else (k, v) :: setPos rest symbol p

/-- Erase a symbol from the `positions_` map. -/
def erasePos (l : List (String × Position)) (symbol : String) :
    List (String × Position) :=
  match l with
  | [] => []
  | (k, v) :: rest => if k = symbol then rest else (k, v) :: erasePos rest symbol

/-- `PositionManager::get_total_equity` (read path): the cached value when
the cache is valid, otherwise the `total_equity` atomic. -/
def PositionManager.get_total_equity (s : PositionManager) : ℚ :=
  if s.equity_cache_valid then s.cached_total_equity else s.portfolio_stats.total_equity

/-- The cache refresh that `get_total_equity` performs on a cache miss. -/
def PositionManager.refreshEquityCache (s : PositionManager) : PositionManager :=
  if s.equity_cache_valid then s
  else { s with cached_total_equity := s.portfolio_stats.total_equity,
                equity_cache_valid := true }

/-- `PositionManager::get_available_cash`. -/
def PositionManager.get_available_cash (s : PositionManager) : ℚ :=
  s.portfolio_stats.available_cash

/-- `PositionManager::get_total_realized_pnl`. -/
def PositionManager.get_total_realized_pnl (s : PositionManager) : ℚ :=
  s.portfolio_stats.total_realized_pnl

/-- Sum of `get_market_value` over all positions in the map (the right-hand
side of the spec invariant `total_equity = cash + Σ position.market_value`). -/
def PositionManager.sumMarketValues (s : PositionManager) : ℚ :=
  (s.positions.map (fun kv => kv.2.get_market_value)).sum

/-- `PositionManager::on_market_data(event)`: if a position exists for the
symbol, mark it with `event.close`, propagate the market-value delta into
`total_market_value` and `total_equity` when it exceeds the tolerance, and
append the current total equity to the equity curve. -/
def PositionManager.on_market_data (s : PositionManager) (event : MarketDataEvent) :
    PositionManager :=
  match s.findPosition event.symbol with
  | none => s
  | some pos =>
    let old_market_value := pos.get_market_value
    let pos1 := pos.update_pnl event.close
    let new_market_value := pos1.get_market_value
    let s1 := { s with positions := setPos s.positions event.symbol pos1 }
    let s2 :=
      if |new_market_value - old_market_value| > eps then
        let dmv := new_market_value - old_market_value
        { s1 with
          portfolio_stats :=
            { s1.portfolio_stats with
              total_market_value := s1.portfolio_stats.total_market_value + dmv
              total_equity := s1.portfolio_stats.total_equity + dmv }
          equity_cache_valid := false }
      else s1
    let current_equity := s2.get_total_equity
    let s3 := s2.refreshEquityCache
    { s3 with equity_curve := s3.equity_curve ++ [current_equity] }

/-- `PositionManager::update_portfolio_statistics(symbol, old, new, realized)`:
add the market-value change and the realized-PnL change to the aggregates
(each guarded by the tolerance) and invalidate the equity cache. -/
def PositionManager.update_portfolio_statistics (s : PositionManager)
    (old_position_value new_position_value realized_pnl_change : ℚ) : PositionManager :=
  let s1 :=
    if |new_position_value - old_position_value| > eps then
      { s with portfolio_stats :=
          { s.portfolio_stats with
            total_market_value :=
              s.portfolio_stats.total_market_value +
                (new_position_value - old_position_value) } }
    else s
  let s2 :=
    if |realized_pnl_change| > eps then
      { s1 with portfolio_stats :=
          { s1.portfolio_stats with
            total_realized_pnl :=
              s1.portfolio_stats.total_realized_pnl + realized_pnl_change } }
    else s1
  { s2 with equity_cache_valid := false }

/-- Position-count bookkeeping of `update_position_on_fill_lockfree`
(new position / closed position / direction change), including the call to
`remove_flat_position` when an existing position went flat. -/
def PositionManager.updPositionCounts (s2 : PositionManager) (symbol : String)
    (position_existed was_long was_short is_now_long is_now_short is_now_flat : Bool) :
    PositionManager :=
  let st := s2.portfolio_stats
  if !position_existed && !is_now_flat then
    { s2 with portfolio_stats :=
        { st with
          total_positions := st.total_positions + 1
          long_positions := st.long_positions + (if is_now_long then 1 else 0)
          short_positions :=
            st.short_positions + (if !is_now_long && is_now_short then 1 else 0) } }
  else if position_existed && is_now_flat then
    let s2a := { s2 with portfolio_stats :=
        { st with
          total_positions := st.total_positions - 1
          long_positions := st.long_positions - (if was_long then 1 else 0)
          short_positions :=
            st.short_positions - (if !was_long && was_short then 1 else 0) } }
    -- remove_flat_position
    if (match s2a.findPosition symbol with
        | some p => decide p.is_flat
        | none => false) then
      { s2a with positions := erasePos s2a.positions symbol }
    else s2a
  else if position_existed then
    if was_long && is_now_short then
      { s2 with portfolio_stats :=
          { st with long_positions := st.long_positions - 1
                    short_positions := st.short_positions + 1 } }
    else if was_short && is_now_long then
      { s2 with portfolio_stats :=
          { st with short_positions := st.short_positions - 1
                    long_positions := st.long_positions + 1 } }
    else s2
  else s2

/-- The guarded `total_unrealized_pnl` addition at the end of
`update_position_on_fill_lockfree`. -/
def PositionManager.addUnrealizedChange (s : PositionManager) (c : ℚ) : PositionManager :=
  if |c| > eps then
    { s with portfolio_stats :=
        { s.portfolio_stats with
          total_unrealized_pnl := s.portfolio_stats.total_unrealized_pnl + c } }
  else s

/-- The guarded `total_realized_pnl` addition at the end of
`update_position_on_fill_lockfree`. -/
def PositionManager.addRealizedChange (s : PositionManager) (c : ℚ) : PositionManager :=
  if |c| > eps then
    { s with portfolio_stats :=
        { s.portfolio_stats with
          total_realized_pnl := s.portfolio_stats.total_realized_pnl + c } }
  else s

/-- The guarded `total_equity` update (plus cache invalidation) at the end of
`update_position_on_fill_lockfree`. -/
def PositionManager.addEquityMarketChange (s : PositionManager) (c : ℚ) : PositionManager :=
  if |c| > eps then
    { s with
      portfolio_stats :=
        { s.portfolio_stats with total_equity := s.portfolio_stats.total_equity + c }
      equity_cache_valid := false }
  else s

/-- Body of `PositionManager::update_position_on_fill_lockfree(event)` once
the old position state has been read: `adjust_position`, store the result,
`update_portfolio_statistics`, position-count bookkeeping, then the
unrealized/realized PnL changes and the total-equity update, in source
order. -/
def PositionManager.fillCore (s : PositionManager) (event : TradeExecutionEvent)
    (pos0 : Position) (position_existed was_long was_short : Bool)
    (old_market_value old_unrealized_pnl old_realized_pnl : ℚ) : PositionManager :=
  let direction : ℚ := if event.is_buy then 1 else -1
  let trade_quantity := event.quantity * direction
  let adj := pos0.adjust_position trade_quantity event.price
  let position := adj.1
  let realized_pnl_from_trade := adj.2
  let s1 := { s with positions := setPos s.positions event.symbol position }
  let new_market_value := position.get_market_value
  let new_unrealized_pnl := position.unrealized_pnl
  let new_realized_pnl := position.realized_pnl
  let is_now_long : Bool := decide position.is_long
  let is_now_short : Bool := decide position.is_short
  let is_now_flat : Bool := decide position.is_flat
  let s2 := s1.update_portfolio_statistics old_market_value new_market_value
      realized_pnl_from_trade
  let s3 := s2.updPositionCounts event.symbol position_existed was_long was_short
      is_now_long is_now_short is_now_flat
  let s4 := s3.addUnrealizedChange (new_unrealized_pnl - old_unrealized_pnl)
  let s5 := s4.addRealizedChange (new_realized_pnl - old_realized_pnl)
  s5.addEquityMarketChange (new_market_value - old_market_value)

/-- Dispatch of `update_position_on_fill_lockfree` on whether a position for
the symbol already exists (`get_or_create_position` emplaces
`Position(symbol, 0.0, 0.0)` when it does not). -/
def PositionManager.update_position_on_fill_lockfree (s : PositionManager)
    (event : TradeExecutionEvent) : PositionManager :=
  match s.findPosition event.symbol with
  | some p =>
      s.fillCore event p true (decide p.is_long) (decide p.is_short)
        p.get_market_value p.unrealized_pnl p.realized_pnl
  | none =>
      s.fillCore event (Position.mkNew 0 0) false false false 0 0 0

/-- `PositionManager::on_trade_execution(event)`: record the trade, update
cash by `direction * quantity * price - commission` (`direction` is `-1` for
a buy, `+1` for a sell), then update the position. -/
def PositionManager.on_trade_execution (s : PositionManager)
    (event : TradeExecutionEvent) : PositionManager :=
  let s1 := { s with trade_history := s.trade_history ++ [event] }
  let direction : ℚ := if event.is_buy then -1 else 1
  let trade_value := event.quantity * event.price
  let cash_change := direction * trade_value - event.commission
  let s2 := { s1 with portfolio_stats :=
      { s1.portfolio_stats with
        available_cash := s1.portfolio_stats.available_cash + cash_change } }
  s2.update_position_on_fill_lockfree event

/-- An event the `PositionManager` processes: a fill
(`on_trade_execution`) or a market bar (`on_market_data`). -/
inductive PMOp
  | fill (event : TradeExecutionEvent)
  | bar (event : MarketDataEvent)
deriving Repr, DecidableEq

/-- Apply one event to the manager. -/
def applyPMOp (s : PositionManager) : PMOp → PositionManager
  | PMOp.fill e => s.on_trade_execution e
  | PMOp.bar e => s.on_market_data e

/-- Run a sequence of events through the manager, in order. -/
def runPMOps (ops : List PMOp) (s : PositionManager) : PositionManager :=
  ops.foldl applyPMOp s

/-- The symbol an event is for. -/
def PMOp.symbol : PMOp → String
  | PMOp.fill e => e.symbol
  | PMOp.bar e => e.symbol

/-- Whether the event is a market bar. -/
def PMOp.isBar : PMOp → Prop
  | PMOp.fill _ => False
  | PMOp.bar _ => True

/-- Every `positions_` entry for `sym` carries mark (current) price `0`. -/
def marksAtZero (sym : String) (s : PositionManager) : Prop :=
  ∀ kv ∈ s.positions, kv.1 = sym → kv.2.current_price = 0

/-! ## Orders and price levels (src/backend/cpp/execution/price_level.h) -/

/-- `Order::Side`. -/
inductive Side
  | BUY
  | SELL
deriving Repr, DecidableEq

/-- `Order::Status`. -/
inductive OrderStatus
  | ACTIVE
  | PARTIALLY_FILLED
  | FULLY_FILLED
  | CANCELLED
deriving Repr, DecidableEq

/-- `Order`: id, side, price, remaining quantity, original quantity, status
and creation-time priority (a counter standing in for the nanosecond
timestamp: orders created later get strictly larger values). -/
structure Order where
  order_id : ℕ
  side : Side
  price : ℚ
  quantity : ℚ
  original_quantity : ℚ
  status : OrderStatus
  priority : ℕ
deriving Repr, DecidableEq

/-- `Order::Order(id, sym, s, p, q)`: remaining = original = `q`,
status `ACTIVE`. -/
def Order.mkNew (order_id : ℕ) (side : Side) (price quantity : ℚ) (priority : ℕ) :
    Order :=
  { order_id := order_id, side := side, price := price, quantity := quantity
    original_quantity := quantity, status := OrderStatus.ACTIVE, priority := priority }

/-- `Order::try_fill(fill_quantity)`: while remaining and requested are
positive, fill `min(remaining, requested)`, CAS the new remaining in and set
the status to `FULLY_FILLED` when the new remaining is exactly `0.0`, else
`PARTIALLY_FILLED` (the source compares `new_qty == 0.0`); returns the pair
(updated order, actual fill).  In sequential execution the CAS loop runs
once. -/
def Order.try_fill (o : Order) (fill_quantity : ℚ) : Order × ℚ :=
  if o.quantity > 0 ∧ fill_quantity > 0 then
    let actual_fill := min o.quantity fill_quantity
    let new_qty := o.quantity - actual_fill
    ({ o with quantity := new_qty
              status := if new_qty = 0 then OrderStatus.FULLY_FILLED
                        else OrderStatus.PARTIALLY_FILLED },
     actual_fill)
  else (o, 0)

/-- `Order::is_active`: status `ACTIVE` or `PARTIALLY_FILLED` and positive
remaining quantity. -/
def Order.is_active (o : Order) : Prop :=
  (o.status = OrderStatus.ACTIVE ∨ o.status = OrderStatus.PARTIALLY_FILLED) ∧
    o.quantity > 0

instance (o : Order) : Decidable o.is_active := by
  unfold Order.is_active; infer_instance

/-- `PriceLevel::is_opposite_side`. -/
def is_opposite_side (side1 side2 : Side) : Prop :=
  (side1 = Side.BUY ∧ side2 = Side.SELL) ∨ (side1 = Side.SELL ∧ side2 = Side.BUY)

instance (s1 s2 : Side) : Decidable (is_opposite_side s1 s2) := by
  unfold is_opposite_side; infer_instance

/-- `PriceLevel`: the linked chain of orders (`head_` first — insertion is
at the head), with the atomic aggregates. -/
structure PriceLevel where
  price : ℚ
  chain : List Order
  total_quantity : ℚ
  order_count : ℕ
deriving Repr, DecidableEq

/-- `PriceLevel::PriceLevel(price)`. -/
def PriceLevel.mkNew (price : ℚ) : PriceLevel :=
  { price := price, chain := [], total_quantity := 0, order_count := 0 }

/-- `PriceLevel::add_order(order)`: reject a wrong-price order
(`|order.price - price_| > 1e-8`), otherwise insert at the chain head and
add the remaining quantity and the order count to the aggregates. -/
def PriceLevel.add_order (lvl : PriceLevel) (o : Order) : PriceLevel × Bool :=
  if |o.price - lvl.price| > eps then (lvl, false)
  else
    ({ lvl with chain := o :: lvl.chain
                total_quantity := lvl.total_quantity + o.quantity
                order_count := lvl.order_count + 1 },
     true)

/-- The chain walk of `PriceLevel::match_orders`: starting from the head,
while quantity remains, apply `try_fill` to every order of the opposite side
that `is_active`; fully filled orders stay in the chain (removal is
deferred).  Returns the updated chain and the total matched quantity. -/
def matchChain (side : Side) : List Order → ℚ → List Order × ℚ
  | [], _ => ([], 0)
  | o :: rest, remaining_quantity =>
    if remaining_quantity > 0 then
      if is_opposite_side o.side side ∧ o.is_active then
        let fill := o.try_fill remaining_quantity
        let tail := matchChain side rest (remaining_quantity - fill.2)
        (fill.1 :: tail.1, fill.2 + tail.2)
      else
        let tail := matchChain side rest remaining_quantity
        (o :: tail.1, tail.2)
    else (o :: rest, 0)

/-- `PriceLevel::match_orders(side, quantity, max_price, min_price)`: price
bound checks, then the chain walk from the head; the matched quantity is
subtracted from the level aggregate. -/
def PriceLevel.match_orders (lvl : PriceLevel) (side : Side)
    (quantity max_price min_price : ℚ) : PriceLevel × ℚ :=
  if side = Side.BUY ∧ max_price > 0 ∧ lvl.price > max_price then (lvl, 0)
  else if side = Side.SELL ∧ min_price > 0 ∧ lvl.price < min_price then (lvl, 0)
  else
    let walk := matchChain side lvl.chain quantity
    ({ lvl with chain := walk.1, total_quantity := lvl.total_quantity - walk.2 },
     walk.2)

/-- The chain scan of `PriceLevel::remove_order`: find the order by id, mark
it `CANCELLED` (whatever its current status — the source does not check it)
and report its remaining quantity. -/
def removeChain : List Order → ℕ → Option (List Order × ℚ)
  | [], _ => none
  | o :: rest, order_id =>
    if o.order_id = order_id then
      some ({ o with status := OrderStatus.CANCELLED } :: rest, o.quantity)
    else
      match removeChain rest order_id with
      | some r => some (o :: r.1, r.2)
      | none => none

/-- `PriceLevel::remove_order(order_id)`: scan the chain, cancel the order,
subtract its remaining quantity from the aggregate and decrement the order
count; `false` when the id is not in the chain. -/
def PriceLevel.remove_order (lvl : PriceLevel) (order_id : ℕ) : PriceLevel × Bool :=
  match removeChain lvl.chain order_id with
  | some r =>
      ({ lvl with chain := r.1
                  total_quantity := lvl.total_quantity - r.2
                  order_count := lvl.order_count - 1 },
       true)
  | none => (lvl, false)

/-- `PriceLevel::has_orders`: positive order count and positive total
quantity. -/
def PriceLevel.has_orders (lvl : PriceLevel) : Prop :=
  lvl.order_count > 0 ∧ lvl.total_quantity > 0

instance (lvl : PriceLevel) : Decidable lvl.has_orders := by
  unfold PriceLevel.has_orders; infer_instance

/-- Find an order by id in a chain (used to state properties of matching). -/
def findInChain : List Order → ℕ → Option Order
  | [], _ => none
  | o :: rest, order_id =>
    if o.order_id = order_id then some o else findInChain rest order_id

/-! ## Order book (src/backend/cpp/execution/lock_free_order_book.{h,cpp}) -/

/-- `MatchResult` with its C++ field defaults. -/
structure MatchResult where
  matched_quantity : ℚ := 0
  average_price : ℚ := 0
  orders_matched : ℕ := 0
  fully_filled : Bool := false
deriving Repr, DecidableEq

/-- `std::round`: half away from zero. -/
def cppRound (x : ℚ) : ℤ :=
  if 0 ≤ x then ⌊x + 1 / 2⌋ else -⌊-x + 1 / 2⌋

/-- `LockFreeOrderBook::round_to_tick(price)`:
`round(price / tick_size) * tick_size`. -/
def round_to_tick (tick_size price : ℚ) : ℚ :=
  (cppRound (price / tick_size) : ℚ) * tick_size

/-- The book: bid ladder descending, ask ladder ascending (the two
`std::map`s), plus the creation-priority counter for new orders. -/
structure LockFreeOrderBook where
  tick_size : ℚ
  bids : List (ℚ × PriceLevel)
  asks : List (ℚ × PriceLevel)
  next_priority : ℕ
deriving Repr, DecidableEq

/-- An empty book with the given tick size (`Config::validate` substitutes
`0.01` for a non-positive tick). -/
def LockFreeOrderBook.mkNew (tick_size : ℚ) : LockFreeOrderBook :=
  { tick_size := if tick_size ≤ 0 then 1 / 100 else tick_size
    bids := [], asks := [], next_priority := 0 }

/-- `get_or_create_price_level` on the ask ladder (ascending keys). -/
def getOrCreateAsk : List (ℚ × PriceLevel) → ℚ → List (ℚ × PriceLevel)
  | [], price => [(price, PriceLevel.mkNew price)]
  | (p, lvl) :: rest, price =>
    if price = p then (p, lvl) :: rest
    else if price < p then (price, PriceLevel.mkNew price) :: (p, lvl) :: rest
    else (p, lvl) :: getOrCreateAsk rest price

/-- `get_or_create_price_level` on the bid ladder (descending keys). -/
def getOrCreateBid : List (ℚ × PriceLevel) → ℚ → List (ℚ × PriceLevel)
  | [], price => [(price, PriceLevel.mkNew price)]
  | (p, lvl) :: rest, price =>
    if price = p then (p, lvl) :: rest
    else if price > p then (price, PriceLevel.mkNew price) :: (p, lvl) :: rest
    else (p, lvl) :: getOrCreateBid rest price

/-- Apply an operation to the level stored at `price` in a ladder. -/
def applyAtPrice (levels : List (ℚ × PriceLevel)) (price : ℚ)
    (f : PriceLevel → PriceLevel × Bool) : List (ℚ × PriceLevel) × Bool :=
  match levels with
  | [] => ([], false)
  | (p, lvl) :: rest =>
    if p = price then
      let r := f lvl
      ((p, r.1) :: rest, r.2)
    else
      let r := applyAtPrice rest price f
      ((p, lvl) :: r.1, r.2)

/-- `LockFreeOrderBook::add_order(order_id, side, price, quantity)`: reject
non-positive price or quantity, round the price to the tick, get or create
the price level on the proper ladder, and delegate to
`PriceLevel::add_order`. -/
def LockFreeOrderBook.add_order (b : LockFreeOrderBook) (order_id : ℕ) (side : Side)
    (price quantity : ℚ) : LockFreeOrderBook × Bool :=
  if quantity ≤ 0 ∨ price ≤ 0 then (b, false)
  else
    let rounded_price := round_to_tick b.tick_size price
    let o := Order.mkNew order_id side rounded_price quantity b.next_priority
    match side with
    | Side.BUY =>
      let levels := getOrCreateBid b.bids rounded_price
      let r := applyAtPrice levels rounded_price (fun lvl => lvl.add_order o)
      ({ b with bids := r.1, next_priority := b.next_priority + 1 }, r.2)
    | Side.SELL =>
      let levels := getOrCreateAsk b.asks rounded_price
      let r := applyAtPrice levels rounded_price (fun lvl => lvl.add_order o)
      ({ b with asks := r.1, next_priority := b.next_priority + 1 }, r.2)

/-- Result of the ladder walk of `match_market_order`: updated ladder,
matched quantity, total value, number of levels that contributed
(the source increments `orders_matched` once per such level). -/
structure LadderWalk where
  levels : List (ℚ × PriceLevel)
  matched : ℚ
  total_value : ℚ
  orders_matched : ℕ
deriving Repr, DecidableEq

/-- The ladder walk of `match_market_order`: stop when the remaining
quantity is exhausted or the next level violates the price bound; on each
level with orders, call `PriceLevel::match_orders` and accumulate. -/
def walkLevels (side : Side) (max_price min_price : ℚ) :
    List (ℚ × PriceLevel) → ℚ → LadderWalk
  | [], _ =>
    { levels := [], matched := 0, total_value := 0, orders_matched := 0 }
  | (price, level) :: rest, remaining_quantity =>
    if remaining_quantity ≤ 0 then
      { levels := (price, level) :: rest, matched := 0, total_value := 0,
        orders_matched := 0 }
    else if side = Side.BUY ∧ max_price > 0 ∧ price > max_price then
      { levels := (price, level) :: rest, matched := 0, total_value := 0,
        orders_matched := 0 }
    else if side = Side.SELL ∧ min_price > 0 ∧ price < min_price then
      { levels := (price, level) :: rest, matched := 0, total_value := 0,
        orders_matched := 0 }
    else if level.has_orders then
      let m := level.match_orders side remaining_quantity max_price min_price
      if m.2 > 0 then
        let tail := walkLevels side max_price min_price rest (remaining_quantity - m.2)
        { levels := (price, m.1) :: tail.levels
          matched := m.2 + tail.matched
          total_value := m.2 * price + tail.total_value
          orders_matched := 1 + tail.orders_matched }
      else
        let tail := walkLevels side max_price min_price rest remaining_quantity
        { levels := (price, m.1) :: tail.levels, matched := tail.matched
          total_value := tail.total_value, orders_matched := tail.orders_matched }
    else
      let tail := walkLevels side max_price min_price rest remaining_quantity
      { levels := (price, level) :: tail.levels, matched := tail.matched
        total_value := tail.total_value, orders_matched := tail.orders_matched }

/-- `LockFreeOrderBook::match_market_order(side, quantity, max_price,
min_price)`: walk the opposite ladder in priority order; when something
matched, set the volume-weighted average price and the fully-filled flag
(`remaining ≤ 1e-8`); otherwise the `MatchResult` keeps its defaults. -/
def LockFreeOrderBook.match_market_order (b : LockFreeOrderBook) (side : Side)
    (quantity : ℚ) (max_price min_price : ℚ) : MatchResult × LockFreeOrderBook :=
  let w :=
    match side with
    | Side.BUY => walkLevels side max_price min_price b.asks quantity
    | Side.SELL => walkLevels side max_price min_price b.bids quantity
  let b1 :=
    match side with
    | Side.BUY => { b with asks := w.levels }
    | Side.SELL => { b with bids := w.levels }
  let result :=
    if w.matched > 0 then
      { matched_quantity := w.matched
        average_price := w.total_value / w.matched
        orders_matched := w.orders_matched
        fully_filled := decide (quantity - w.matched ≤ eps) }
    else
      { matched_quantity := w.matched
        average_price := 0
        orders_matched := w.orders_matched
        fully_filled := false }
  (result, b1)

/-- Find an order by id anywhere in the book (bids first, then asks). -/
def LockFreeOrderBook.findOrder (b : LockFreeOrderBook) (order_id : ℕ) : Option Order :=
  let scan := fun (levels : List (ℚ × PriceLevel)) =>
    levels.foldr (fun kv acc => (findInChain kv.2.chain order_id).orElse (fun _ => acc))
      none
  (scan b.bids).orElse (fun _ => scan b.asks)

/-! ## Event lifecycle of the dispatch loop
(src/src/cpp/core/backtest_engine.cpp, src/backend/cpp/core/event_pool.h)

`BacktestEngine::process_events` pulls an event from the `EventQueue`,
discriminates its type, dispatches it, and moves on.  `pool_releases` counts
the `EventPool::destroy_event` calls the loop makes: the body of
`process_events` in the source contains no such call, so no step of the
model increments it. -/

/-- The three event variants the dispatch loop discriminates. -/
inductive EngineEvent
  | marketData (event : MarketDataEvent)
  | tradingSignal (symbol : String)
  | tradeExecution (event : TradeExecutionEvent)
deriving Repr

/-- Engine state: the event queue (FIFO), the position manager, and counters
for dispatched events and for pool releases (`destroy_event` calls). -/
structure BacktestEngine where
  queue : List EngineEvent
  position_manager : PositionManager
  events_dispatched : ℕ
  pool_releases : ℕ

/-- One iteration of `BacktestEngine::process_events`, parameterized by the
strategy (`generate_signal`, which may produce a signal event from the
pool) and the executor (`simulate_order_execution`, which may produce a
fill event from the pool):
market data goes to `position_manager_->on_market_data` and the strategy,
a signal goes to the executor, a fill goes to
`position_manager_->on_trade_execution`; produced events are re-enqueued.
No branch calls `destroy_event`, matching the source. -/
def process_one_event (generate_signal : MarketDataEvent → Option EngineEvent)
    (simulate_order_execution : String → Option EngineEvent)
    (s : BacktestEngine) : BacktestEngine :=
  match s.queue with
  | [] => s
  | event :: rest =>
    match event with
    | EngineEvent.marketData e =>
        { s with queue := rest ++ (generate_signal e).toList
                 position_manager := s.position_manager.on_market_data e
                 events_dispatched := s.events_dispatched + 1 }
    | EngineEvent.tradingSignal sym =>
        { s with queue := rest ++ (simulate_order_execution sym).toList
                 events_dispatched := s.events_dispatched + 1 }
    | EngineEvent.tradeExecution e =>
        { s with queue := rest
                 position_manager := s.position_manager.on_trade_execution e
                 events_dispatched := s.events_dispatched + 1 }

/-- `process_events` iterated `n` times. -/
def process_events (generate_signal : MarketDataEvent → Option EngineEvent)
    (simulate_order_execution : String → Option EngineEvent) :
    ℕ → BacktestEngine → BacktestEngine
  | 0, s => s
  | n + 1, s =>
      process_events generate_signal simulate_order_execution n
        (process_one_event generate_signal simulate_order_execution s)

/-! ## Disruptor ring buffer (src/backend/cpp/core/disruptor_queue.h)

Single producer, single consumer, in sequential execution: the CAS in
`claim_next_sequence` always succeeds, and `SequenceBarrier::try_wait_for`
with no dependency sequences returns the producer cursor.  `int64_t`
sequences are modelled as `ℤ` (the spec treats 64-bit wraparound as
unreachable); slots hold `Option E`, with `none` for `nullptr`. -/

/-- The slot index `sequence & buffer_mask_` with `buffer_mask_ =
capacity - 1`. -/
def slotIndex (capacity : ℕ) (sequence : ℤ) : ℕ :=
  sequence.toNat &&& (capacity - 1)

/-- Ring state: producer `cursor_`, `consumer_sequence_` (both start at
`-1`) and the slot array, all slots initially `nullptr`. -/
structure RingState (E : Type) where
  cursor : ℤ
  consumer_sequence : ℤ
  buffer : ℕ → Option E

/-- The freshly constructed queue. -/
def RingState.mkNew (E : Type) : RingState E :=
  { cursor := -1, consumer_sequence := -1, buffer := fun _ => none }

/-- `DisruptorQueue::try_publish(event)`: `claim_next_sequence` computes
`next = cursor + 1` and fails when `next - capacity > consumer_sequence`
(the buffer would lap the consumer); on success the event is stored at
`slot[next & mask]` and the cursor advances to `next`. -/
def try_publish {E : Type} (capacity : ℕ) (event : E) (s : RingState E) :
    Option (RingState E) :=
  let next_sequence := s.cursor + 1
  if next_sequence - (capacity : ℤ) > s.consumer_sequence then none
  else
    some { cursor := next_sequence
           consumer_sequence := s.consumer_sequence
           buffer := fun i =>
             if i = slotIndex capacity next_sequence then some event else s.buffer i }

/-- `DisruptorQueue::try_consume()`: `next = consumer_sequence + 1`; the
barrier reports the cursor, and if it is `< next` the call returns
`nullptr`; otherwise the event is read from `slot[next & mask]`, the slot is
cleared, and the consumer sequence is stored as `next`. -/
def try_consume {E : Type} (capacity : ℕ) (s : RingState E) :
    Option E × RingState E :=
  let next_consume_sequence := s.consumer_sequence + 1
  if s.cursor < next_consume_sequence then (none, s)
  else
    let idx := slotIndex capacity next_consume_sequence
    (s.buffer idx,
     { cursor := s.cursor
       consumer_sequence := next_consume_sequence
       buffer := fun i => if i = idx then none else s.buffer i })

/-- A producer/consumer operation on the queue. -/
inductive RingOp (E : Type)
  | pub (event : E)
  | con

/-- A run of the queue together with its observable history: the events
successfully published, in order, and the (non-null) events successfully
consumed, in order. -/
structure RingTrace (E : Type) where
  ring : RingState E
  published : List E
  consumed : List E

/-- The empty trace over a fresh queue. -/
def RingTrace.mkNew (E : Type) : RingTrace E :=
  { ring := RingState.mkNew E, published := [], consumed := [] }

/-- One operation applied to a trace. -/
def ringStep {E : Type} (capacity : ℕ) (t : RingTrace E) : RingOp E → RingTrace E
  | RingOp.pub event =>
      match try_publish capacity event t.ring with
      | none => t
      | some r =>
          { ring := r, published := t.published ++ [event], consumed := t.consumed }
  | RingOp.con =>
      match try_consume capacity t.ring with
      | (none, r) => { t with ring := r }
      | (some event, r) =>
          { ring := r, published := t.published, consumed := t.consumed ++ [event] }

/-- A sequence of operations applied to a trace. -/
def ringRun {E : Type} (capacity : ℕ) (ops : List (RingOp E)) (t : RingTrace E) :
    RingTrace E :=
  ops.foldl (ringStep capacity) t

/-- The stress schedule of spec scenario 6: `n` rounds of one `try_publish`
(event `i` in round `i`) immediately followed by one `try_consume` — the
consumer keeping pace with the producer. -/
def stressOps (n : ℕ) : List (RingOp ℕ) :=
  (List.range n).flatMap (fun i => [RingOp.pub i, RingOp.con])

/-- The run invariant of the single-producer single-consumer queue with
capacity `2 ^ k`: the cursor and consumer sequence track the lengths of the
published and consumed histories, the in-flight window never exceeds the
capacity, the consumed events are exactly the first consumed-length
published events (exactly-once, in publish order), and every in-flight slot
holds the event published at its sequence. -/
def RingInv {E : Type} (k : ℕ) (t : RingTrace E) : Prop :=
  t.ring.cursor = (t.published.length : ℤ) - 1 ∧
  t.ring.consumer_sequence = (t.consumed.length : ℤ) - 1 ∧
  t.consumed.length ≤ t.published.length ∧
  t.published.length - t.consumed.length ≤ 2 ^ k ∧
  t.consumed = t.published.take t.consumed.length ∧
  ∀ i : ℕ, t.consumed.length ≤ i → i < t.published.length →
    t.ring.buffer (slotIndex (2 ^ k) (i : ℤ)) = t.published[i]?

/-! ## Ring-buffer construction
(`DisruptorQueue::DisruptorQueue` and `DisruptorQueue::Config::validate`,
src/backend/cpp/core/disruptor_queue.h) -/

/-- The `while (next_power < buffer_size) next_power <<= 1` loop of
`Config::validate`, with explicit fuel (the loop runs at most
`buffer_size` times since the power doubles from 1). -/
def nextPowLoop : ℕ → ℕ → ℕ → ℕ
  | 0, _, next_power => next_power
  | fuel + 1, buffer_size, next_power =>
    if next_power < buffer_size then nextPowLoop fuel buffer_size (2 * next_power)
    else next_power

/-- `DisruptorQueue::Config::validate()`: round a non-power-of-two
`buffer_size` up to the next power of two, then force a minimum of 2. -/
def validate_buffer_size (buffer_size : ℕ) : ℕ :=
  let bs :=
    if buffer_size &&& (buffer_size - 1) ≠ 0 then nextPowLoop buffer_size buffer_size 1
    else buffer_size
  if bs < 2 then 2 else bs

/-- What the `DisruptorQueue` constructor actually produces.  The member
initializer list runs first and reads the UNVALIDATED `config.buffer_size`
into `buffer_mask_` and the slot vector size; `config_.validate()` only runs
afterwards in the constructor body, so only `capacity()` (which re-reads
`config_.buffer_size`) sees the validated value. -/
structure DisruptorQueueInit where
  buffer_mask : ℕ
  buffer_slots : ℕ
  capacity : ℕ
deriving Repr, DecidableEq

/-- `DisruptorQueue::DisruptorQueue(config)` for a requested
`buffer_size`. -/
def DisruptorQueue_construct (buffer_size : ℕ) : DisruptorQueueInit :=
  { buffer_mask := buffer_size - 1
    buffer_slots := buffer_size
    capacity := validate_buffer_size buffer_size }

/-! ## Order state machine operations (claim C8) -/

/-- The operations of claim C8 on a single resting order: `Order::try_fill`
and cancellation (`PriceLevel::remove_order` locating this order marks it
`CANCELLED` unconditionally). -/
inductive OrderOp
  | tryFill (fill_quantity : ℚ)
  | cancel

/-- Apply one operation to an order. -/
def applyOrderOp (o : Order) : OrderOp → Order
  | OrderOp.tryFill fill_quantity => (o.try_fill fill_quantity).1
  | OrderOp.cancel => { o with status := OrderStatus.CANCELLED }

/-- Apply a sequence of operations to an order. -/
def runOrderOps (ops : List OrderOp) (o : Order) : Order :=
  ops.foldl applyOrderOp o

/-- The status transitions the code can actually take in one step:
the claimed machine `ACTIVE → {PARTIAL, FILLED, CANCELLED}`,
`PARTIAL → {PARTIAL, FILLED, CANCELLED}` — plus `FULLY_FILLED → CANCELLED`
(`remove_order` cancels without checking the status) and
`CANCELLED → {PARTIAL, FILLED}` (`try_fill` fills without checking the
status). -/
def statusStep (s t : OrderStatus) : Prop :=
  s = t ∨
  (s = OrderStatus.ACTIVE ∧
    (t = OrderStatus.PARTIALLY_FILLED ∨ t = OrderStatus.FULLY_FILLED ∨
     t = OrderStatus.CANCELLED)) ∨
  (s = OrderStatus.PARTIALLY_FILLED ∧
    (t = OrderStatus.FULLY_FILLED ∨ t = OrderStatus.CANCELLED)) ∨
  (s = OrderStatus.FULLY_FILLED ∧ t = OrderStatus.CANCELLED) ∨
  (s = OrderStatus.CANCELLED ∧
    (t = OrderStatus.PARTIALLY_FILLED ∨ t = OrderStatus.FULLY_FILLED))

/-- The data invariants of claim C8 that do hold: remaining quantity stays
in `[0, original]` and `FULLY_FILLED` implies remaining `= 0`. -/
def OrderInv (o : Order) : Prop :=
  0 ≤ o.quantity ∧ o.quantity ≤ o.original_quantity ∧
    (o.status = OrderStatus.FULLY_FILLED → o.quantity = 0)

/-! ## Helper lemmas about the position-manager embedding -/

lemma Position.update_pnl_entry_price (p : Position) (x : ℚ) :
    (p.update_pnl x).entry_price = p.entry_price := by
  simp only [Position.update_pnl]
  split <;> rfl

lemma Position.update_pnl_quantity (p : Position) (x : ℚ) :
    (p.update_pnl x).quantity = p.quantity := by
  simp only [Position.update_pnl]
  split <;> rfl

lemma Position.update_pnl_current_price (p : Position) (x : ℚ) :
    (p.update_pnl x).current_price = x := by
  simp only [Position.update_pnl]
  split <;> rfl

/-! ## Claim theorems C1, C4, C5, C10 -/

/-- C1: the claimed invariant `total_equity = cash + Σ position.market_value`
fails on the code.  From initial capital 100000, after `on_trade_execution`
(buy 100 at 150, commission 5) and a bar with close 155, `get_total_equity`
returns 115500: the fill path updates `available_cash` but never propagates
the cash change into `total_equity`, so equity misses the −15005 cash leg.
Cash plus the summed position market values is 100000 − 15005 + 15500 =
100495, the value the claim (and the repository's own
`test_pnl_and_equity_calculation`) expects. -/
theorem c1_total_equity_breaks_cash_plus_market_value :
    ((((PositionManager.mkNew 100000).on_trade_execution
        { symbol := "AAPL", quantity := 100, price := 150,
          commission := 5, is_buy := true }).on_market_data
        { symbol := "AAPL", close := 155 }).get_total_equity = 115500) ∧
    ((((PositionManager.mkNew 100000).on_trade_execution
        { symbol := "AAPL", quantity := 100, price := 150,
          commission := 5, is_buy := true }).on_market_data
        { symbol := "AAPL", close := 155 }).get_available_cash +
      (((PositionManager.mkNew 100000).on_trade_execution
        { symbol := "AAPL", quantity := 100, price := 150,
          commission := 5, is_buy := true }).on_market_data
        { symbol := "AAPL", close := 155 }).sumMarketValues
      = 100000 - 15005 + 15500) ∧
    ((100000 - 15005 + 15500 : ℚ) ≠ 115500) := by
  refine ⟨?_, ?_, ?_⟩ <;>
    norm_num [PositionManager.mkNew, PositionManager.on_trade_execution,
      PositionManager.update_position_on_fill_lockfree, PositionManager.fillCore,
      PositionManager.findPosition, PositionManager.update_portfolio_statistics,
      PositionManager.updPositionCounts, PositionManager.addUnrealizedChange,
      PositionManager.addRealizedChange, PositionManager.addEquityMarketChange,
      PositionManager.on_market_data, PositionManager.get_total_equity,
      PositionManager.refreshEquityCache, PositionManager.get_available_cash,
      PositionManager.sumMarketValues, PositionManager.get_total_realized_pnl,
      setPos, erasePos, Position.mkNew, Position.adjust_position, Position.update_pnl,
      Position.get_market_value, Position.is_long, Position.is_short, Position.is_flat,
      eps, List.lookup]

/-- C4: the portfolio's total realized PnL changes by twice the claimed
delta.  Closing a long of 100 at entry 150 with a sell at 160 should move
`total_realized_pnl` by (160 − 150) × 100 × 1 = 1000, but
`update_position_on_fill_lockfree` adds the trade's realized PnL once inside
`update_portfolio_statistics` and then adds the position's realized-PnL
change (the same 1000) a second time, ending at 2000. -/
theorem c4_realized_pnl_added_twice :
    ((((PositionManager.mkNew 100000).on_trade_execution
        { symbol := "AAPL", quantity := 100, price := 150,
          commission := 5, is_buy := true }).on_trade_execution
        { symbol := "AAPL", quantity := 100, price := 160,
          commission := 5, is_buy := false }).get_total_realized_pnl = 2000) ∧
    ((160 - 150) * 100 * 1 = (1000 : ℚ)) ∧ ((2000 : ℚ) ≠ 1000) := by
  refine ⟨?_, ?_, ?_⟩ <;>
    norm_num [PositionManager.mkNew, PositionManager.on_trade_execution,
      PositionManager.update_position_on_fill_lockfree, PositionManager.fillCore,
      PositionManager.findPosition, PositionManager.update_portfolio_statistics,
      PositionManager.updPositionCounts, PositionManager.addUnrealizedChange,
      PositionManager.addRealizedChange, PositionManager.addEquityMarketChange,
      PositionManager.on_market_data, PositionManager.get_total_equity,
      PositionManager.refreshEquityCache, PositionManager.get_available_cash,
      PositionManager.sumMarketValues, PositionManager.get_total_realized_pnl,
      setPos, erasePos, Position.mkNew, Position.adjust_position, Position.update_pnl,
      Position.get_market_value, Position.is_long, Position.is_short, Position.is_flat,
      eps, List.lookup]

/-- C5 counterexample: a fill that flips the direction of a position keeps
the pre-flip entry price instead of resetting it.  A long 100 at entry 150,
hit by a sell of 150 at 160, becomes a short 50 whose entry price is still
150 (in particular it is not the flip trade price 160). -/
theorem c5_flip_keeps_pre_flip_entry_price :
    (((Position.mkNew 100 150).adjust_position (-150) 160).1.quantity = -50) ∧
    (((Position.mkNew 100 150).adjust_position (-150) 160).1.entry_price = 150) ∧
    (((Position.mkNew 100 150).adjust_position (-150) 160).1.entry_price ≠ 160) := by
  refine ⟨?_, ?_, ?_⟩ <;>
    norm_num [Position.mkNew, Position.adjust_position, Position.update_pnl, eps]

/-- Entry-price characterization of `adjust_position`: the entry price
changes (to the notional-weighted average) exactly when the result is
non-flat, the fill is in the same direction and the absolute quantity grows;
in every other case (reduction, flip, flat result) it is left unchanged. -/
lemma adjust_position_entry_price (p : Position) (delta price : ℚ) :
    (p.adjust_position delta price).1.entry_price =
      if eps < |p.quantity + delta| then
        if 0 ≤ p.quantity * delta ∧ |p.quantity| < |p.quantity + delta| then
          (p.quantity * p.entry_price + delta * price) / (p.quantity + delta)
        else p.entry_price
      else p.entry_price := by
  simp only [Position.adjust_position]
  split_ifs <;> simp [Position.update_pnl_entry_price]

/-- C5 (amended): `adjust_position` sets the entry price to the
notional-weighted average when the fill increases the absolute position in
the same direction, and leaves it unchanged in every other case — on a
reduction without flip and also on a direction flip (the flip does not
reset the entry price). -/
theorem c5_entry_price_policy (p : Position) (delta price : ℚ) :
    (0 ≤ p.quantity * delta → |p.quantity| < |p.quantity + delta| →
      eps < |p.quantity + delta| →
      (p.adjust_position delta price).1.entry_price
        = (p.quantity * p.entry_price + delta * price) / (p.quantity + delta)) ∧
    (0 < p.quantity * (p.quantity + delta) → |p.quantity + delta| < |p.quantity| →
      (p.adjust_position delta price).1.entry_price = p.entry_price) ∧
    (p.quantity * (p.quantity + delta) < 0 →
      (p.adjust_position delta price).1.entry_price = p.entry_price) := by
  refine ⟨?_, ?_, ?_⟩
  · intro hsd hinc hne
    rw [adjust_position_entry_price, if_pos hne, if_pos ⟨hsd, hinc⟩]
  · intro _hred hred
    rw [adjust_position_entry_price]
    rcases le_or_lt |p.quantity + delta| eps with h | h
    · rw [if_neg (not_lt.mpr h)]
    · rw [if_pos h, if_neg]
      rintro ⟨-, hinc⟩
      exact absurd hinc (not_lt.mpr hred.le)
  · intro hflip
    have hnd : ¬ 0 ≤ p.quantity * delta := by
      intro hsd
      nlinarith [sq_nonneg p.quantity]
    rw [adjust_position_entry_price]
    rcases le_or_lt |p.quantity + delta| eps with h | h
    · rw [if_neg (not_lt.mpr h)]
    · rw [if_pos h, if_neg]
      rintro ⟨hsd, -⟩
      exact hnd hsd

/-- Witness for `c5_entry_price_policy` at concrete fills: add 100 at 160 to
a long 100 at entry 150 (average 155), reduce by 50 (entry kept), flip by
selling 150 (entry kept). -/
theorem c5_entry_price_policy_witness :
    (((Position.mkNew 100 150).adjust_position 100 160).1.entry_price = 155) ∧
    (((Position.mkNew 100 150).adjust_position (-50) 160).1.entry_price = 150) ∧
    (((Position.mkNew 100 150).adjust_position (-150) 160).1.entry_price = 150) := by
  refine ⟨?_, ?_, ?_⟩
  · have h := (c5_entry_price_policy (Position.mkNew 100 150) 100 160).1
      (by norm_num [Position.mkNew]) (by norm_num [Position.mkNew])
      (by norm_num [Position.mkNew, eps])
    rw [h]; norm_num [Position.mkNew]
  · exact (c5_entry_price_policy (Position.mkNew 100 150) (-50) 160).2.1
      (by norm_num [Position.mkNew]) (by norm_num [Position.mkNew])
  · exact (c5_entry_price_policy (Position.mkNew 100 150) (-150) 160).2.2
      (by norm_num [Position.mkNew])


/-! ## C10: mark price of a freshly opened position -/

lemma update_portfolio_statistics_positions (s : PositionManager) (a b c : ℚ) :
    (s.update_portfolio_statistics a b c).positions = s.positions := by
  simp only [PositionManager.update_portfolio_statistics]
  split_ifs <;> rfl

lemma addUnrealizedChange_positions (s : PositionManager) (c : ℚ) :
    (s.addUnrealizedChange c).positions = s.positions := by
  simp only [PositionManager.addUnrealizedChange]
  split_ifs <;> rfl

lemma addRealizedChange_positions (s : PositionManager) (c : ℚ) :
    (s.addRealizedChange c).positions = s.positions := by
  simp only [PositionManager.addRealizedChange]
  split_ifs <;> rfl

lemma addEquityMarketChange_positions (s : PositionManager) (c : ℚ) :
    (s.addEquityMarketChange c).positions = s.positions := by
  simp only [PositionManager.addEquityMarketChange]
  split_ifs <;> rfl

lemma updPositionCounts_positions_new (s : PositionManager) (sym : String)
    (wl ws inl ins : Bool) :
    (s.updPositionCounts sym false wl ws inl ins false).positions = s.positions := by
  simp only [PositionManager.updPositionCounts]
  norm_num

/-- `adjust_position` on the zero position `Position(symbol, 0.0, 0.0)`
created by `get_or_create_position`: the fill opens the position at entry
price `trade_price`, but the mark (`current_price`) stays `0`, so the
recomputed unrealized PnL is `(0 - trade_price) * delta` and the market
value is `0`. -/
lemma adjust_position_from_zero (delta price : ℚ) (h : eps < |delta|) :
    ((Position.mkNew 0 0).adjust_position delta price).1 =
      { quantity := delta, entry_price := price, current_price := 0,
        unrealized_pnl := (0 - price) * delta, realized_pnl := 0 } := by
  have hd : delta ≠ 0 := by
    intro h0
    rw [h0] at h
    norm_num [eps] at h
  have h0 : (0 : ℚ) < |delta| := lt_trans (by norm_num [eps]) h
  simp only [Position.adjust_position, Position.mkNew, Position.update_pnl]
  norm_num [h, h0, hd, mul_comm]

lemma fillCore_positions_new (s : PositionManager) (event : TradeExecutionEvent)
    (pos0 : Position) (wl ws : Bool) (omv oupl orpl : ℚ)
    (h : ¬ ((pos0.adjust_position (event.quantity * (if event.is_buy then 1 else -1))
        event.price).1.is_flat)) :
    (s.fillCore event pos0 false wl ws omv oupl orpl).positions
      = setPos s.positions event.symbol
          ((pos0.adjust_position (event.quantity * (if event.is_buy then 1 else -1))
            event.price).1) := by
  simp only [PositionManager.fillCore]
  rw [addEquityMarketChange_positions, addRealizedChange_positions,
      addUnrealizedChange_positions, decide_eq_false h,
      updPositionCounts_positions_new, update_portfolio_statistics_positions]

/-- C10 counterexample: the claim fails at a fill whose quantity is below
the flatness tolerance `1e-8`.  Buying `1e-9` units at 150 on a fresh
manager creates a map entry whose quantity was snapped to `0` by the flat
branch of `adjust_position`; its unrealized PnL is `0`, not
`(0 - 150) * 1e-9` as the claim requires. -/
theorem c10_tiny_fill_keeps_zero_unrealized :
    (((PositionManager.mkNew 100000).on_trade_execution
        { symbol := "A", quantity := 1 / 1000000000, price := 150,
          commission := 0, is_buy := true }).findPosition "A"
      = some { quantity := 0, entry_price := 0, current_price := 0,
               unrealized_pnl := 0, realized_pnl := 0 }) ∧
    ((0 - 150) * ((1 / 1000000000 : ℚ) * 1) ≠ 0) := by
  constructor
  · norm_num [PositionManager.mkNew, PositionManager.on_trade_execution,
      PositionManager.update_position_on_fill_lockfree, PositionManager.fillCore,
      PositionManager.findPosition, PositionManager.update_portfolio_statistics,
      PositionManager.updPositionCounts, PositionManager.addUnrealizedChange,
      PositionManager.addRealizedChange, PositionManager.addEquityMarketChange,
      setPos, erasePos, Position.mkNew, Position.adjust_position, Position.update_pnl,
      Position.get_market_value, Position.is_long, Position.is_short, Position.is_flat,
      eps, List.lookup, abs_of_pos, abs_of_neg, abs_of_nonneg]
  · norm_num

lemma lookup_setPos_self (l : List (String × Position)) (sym : String) (p : Position) :
    (setPos l sym p).lookup sym = some p := by
  induction l with
  | nil => simp [setPos, List.lookup]
  | cons kv rest ih =>
    obtain ⟨k, v⟩ := kv
    by_cases hk : k = sym
    · subst hk
      simp [setPos, List.lookup]
    · have hbk : (sym == k) = false := by simp [Ne.symm hk]
      simp [setPos, if_neg hk, List.lookup, hbk, ih]

lemma lookup_setPos_other (l : List (String × Position)) (k : String) (p : Position)
    (sym : String) (h : k ≠ sym) :
    (setPos l k p).lookup sym = l.lookup sym := by
  induction l with
  | nil =>
    have hbk : (sym == k) = false := by simp [Ne.symm h]
    simp [setPos, List.lookup, hbk]
  | cons kv rest ih =>
    obtain ⟨k0, v0⟩ := kv
    by_cases hk0 : k0 = k
    · subst hk0
      have hbk : (sym == k0) = false := by simp [Ne.symm h]
      simp [setPos, List.lookup, hbk]
    · simp only [setPos, if_neg hk0, List.lookup]
      cases hbe : sym == k0 <;> simp [ih]

lemma lookup_erasePos_other (l : List (String × Position)) (k sym : String)
    (h : k ≠ sym) :
    (erasePos l k).lookup sym = l.lookup sym := by
  induction l with
  | nil => rfl
  | cons kv rest ih =>
    obtain ⟨k0, v0⟩ := kv
    by_cases hk0 : k0 = k
    · subst hk0
      have hbk : (sym == k0) = false := by simp [Ne.symm h]
      simp [erasePos, List.lookup, hbk]
    · simp only [erasePos, if_neg hk0, List.lookup]
      cases hbe : sym == k0 <;> simp [ih]

lemma lookup_mem (l : List (String × Position)) (sym : String) (p : Position)
    (h : l.lookup sym = some p) : (sym, p) ∈ l := by
  induction l with
  | nil => simp [List.lookup] at h
  | cons kv rest ih =>
    obtain ⟨k0, v0⟩ := kv
    by_cases hk : sym = k0
    · subst hk
      simp [List.lookup] at h
      subst h
      exact List.mem_cons_self _ _
    · have hbk : (sym == k0) = false := by simp [hk]
      simp only [List.lookup, hbk] at h
      exact List.mem_cons_of_mem _ (ih h)

lemma lookup_none_forall (l : List (String × Position)) (sym : String)
    (h : l.lookup sym = none) : ∀ kv ∈ l, kv.1 ≠ sym := by
  induction l with
  | nil =>
    intro kv hkv
    simp at hkv
  | cons kv0 rest ih =>
    obtain ⟨k0, v0⟩ := kv0
    by_cases hk : sym = k0
    · subst hk
      simp [List.lookup] at h
    · have hbk : (sym == k0) = false := by simp [hk]
      simp only [List.lookup, hbk] at h
      intro kv hkv
      rcases List.mem_cons.mp hkv with h1 | h1
      · rw [h1]
        exact fun he => hk he.symm
      · exact ih h kv h1

lemma mem_setPos (l : List (String × Position)) (k : String) (p : Position) :
    ∀ kv ∈ setPos l k p, kv ∈ l ∨ kv = (k, p) := by
  induction l with
  | nil =>
    intro kv hkv
    simp [setPos] at hkv
    right
    exact hkv
  | cons kv0 rest ih =>
    obtain ⟨k0, v0⟩ := kv0
    intro kv hkv
    by_cases hk : k0 = k
    · simp only [setPos, if_pos hk] at hkv
      rcases List.mem_cons.mp hkv with h1 | h1
      · right
        rw [h1, hk]
      · left
        exact List.mem_cons_of_mem _ h1
    · simp only [setPos, if_neg hk] at hkv
      rcases List.mem_cons.mp hkv with h1 | h1
      · left
        rw [h1]
        exact List.mem_cons_self _ _
      · rcases ih kv h1 with h2 | h2
        · left
          exact List.mem_cons_of_mem _ h2
        · right
          exact h2

lemma mem_erasePos (l : List (String × Position)) (k : String) :
    ∀ kv ∈ erasePos l k, kv ∈ l := by
  induction l with
  | nil =>
    intro kv hkv
    simp [erasePos] at hkv
  | cons kv0 rest ih =>
    obtain ⟨k0, v0⟩ := kv0
    intro kv hkv
    by_cases hk : k0 = k
    · simp only [erasePos, if_pos hk] at hkv
      exact List.mem_cons_of_mem _ hkv
    · simp only [erasePos, if_neg hk] at hkv
      rcases List.mem_cons.mp hkv with h1 | h1
      · rw [h1]
        exact List.mem_cons_self _ _
      · exact List.mem_cons_of_mem _ (ih kv h1)

/-- `adjust_position` never touches the mark price: `update_pnl` is called
with the position's own `current_price`, and the flat branch leaves it
unchanged. -/
lemma adjust_position_current_price (p : Position) (d pr : ℚ) :
    ((p.adjust_position d pr).1).current_price = p.current_price := by
  simp only [Position.adjust_position, Position.update_pnl]
  split_ifs <;> rfl

lemma refreshEquityCache_positions (s : PositionManager) :
    (s.refreshEquityCache).positions = s.positions := by
  simp only [PositionManager.refreshEquityCache]
  split_ifs <;> rfl

lemma on_market_data_positions_none (s : PositionManager) (event : MarketDataEvent)
    (hfp : s.findPosition event.symbol = none) :
    (s.on_market_data event).positions = s.positions := by
  simp only [PositionManager.on_market_data, hfp]

lemma on_market_data_positions_some (s : PositionManager) (event : MarketDataEvent)
    (pos : Position) (hfp : s.findPosition event.symbol = some pos) :
    (s.on_market_data event).positions
      = setPos s.positions event.symbol (pos.update_pnl event.close) := by
  simp only [PositionManager.on_market_data, hfp]
  split_ifs <;> simp [refreshEquityCache_positions]

/-- The `positions_` map after `fillCore` is the stored adjusted position,
possibly erased again by `remove_flat_position` — in both cases only the
entry for `event.symbol` is touched. -/
lemma fillCore_positions_cases (s : PositionManager) (event : TradeExecutionEvent)
    (pos0 : Position) (pe wl ws : Bool) (o1 o2 o3 : ℚ) :
    (s.fillCore event pos0 pe wl ws o1 o2 o3).positions
        = setPos s.positions event.symbol
            ((pos0.adjust_position (event.quantity * (if event.is_buy then 1 else -1))
              event.price).1) ∨
    (s.fillCore event pos0 pe wl ws o1 o2 o3).positions
        = erasePos (setPos s.positions event.symbol
            ((pos0.adjust_position (event.quantity * (if event.is_buy then 1 else -1))
              event.price).1)) event.symbol := by
  simp only [PositionManager.fillCore]
  rw [addEquityMarketChange_positions, addRealizedChange_positions,
      addUnrealizedChange_positions]
  simp only [PositionManager.updPositionCounts]
  split_ifs <;> simp [update_portfolio_statistics_positions]

lemma fillCore_lookup_other (s : PositionManager) (event : TradeExecutionEvent)
    (pos0 : Position) (pe wl ws : Bool) (o1 o2 o3 : ℚ) (sym : String)
    (hne : event.symbol ≠ sym) :
    (s.fillCore event pos0 pe wl ws o1 o2 o3).findPosition sym
      = s.findPosition sym := by
  rcases fillCore_positions_cases s event pos0 pe wl ws o1 o2 o3 with hp | hp <;>
    simp only [PositionManager.findPosition, hp,
      lookup_erasePos_other _ _ _ hne, lookup_setPos_other _ _ _ _ hne]

lemma update_position_on_fill_lockfree_lookup_other (s : PositionManager)
    (event : TradeExecutionEvent) (sym : String) (hne : event.symbol ≠ sym) :
    (s.update_position_on_fill_lockfree event).findPosition sym
      = s.findPosition sym := by
  cases hfp : s.findPosition event.symbol with
  | none =>
    simp only [PositionManager.update_position_on_fill_lockfree, hfp]
    exact fillCore_lookup_other s event _ false false false 0 0 0 sym hne
  | some p =>
    simp only [PositionManager.update_position_on_fill_lockfree, hfp]
    exact fillCore_lookup_other s event p true _ _ _ _ _ sym hne

/-- A fill for another symbol leaves the map entry for `sym` untouched. -/
lemma on_trade_execution_lookup_other (s : PositionManager)
    (event : TradeExecutionEvent) (sym : String) (hne : event.symbol ≠ sym) :
    (s.on_trade_execution event).findPosition sym = s.findPosition sym := by
  simp only [PositionManager.on_trade_execution]
  exact update_position_on_fill_lockfree_lookup_other _ event sym hne

/-- A market bar for another symbol leaves the map entry for `sym`
untouched. -/
lemma on_market_data_lookup_other (s : PositionManager) (event : MarketDataEvent)
    (sym : String) (hne : event.symbol ≠ sym) :
    (s.on_market_data event).findPosition sym = s.findPosition sym := by
  cases hfp : s.findPosition event.symbol with
  | none =>
    simp only [PositionManager.findPosition, on_market_data_positions_none s event hfp]
  | some pos =>
    simp only [PositionManager.findPosition,
      on_market_data_positions_some s event pos hfp, lookup_setPos_other _ _ _ _ hne]

lemma marksAtZero_fillCore (sym : String) (s : PositionManager)
    (event : TradeExecutionEvent) (pos0 : Position) (pe wl ws : Bool) (o1 o2 o3 : ℚ)
    (hK : marksAtZero sym s) (hpos0 : event.symbol = sym → pos0.current_price = 0) :
    marksAtZero sym (s.fillCore event pos0 pe wl ws o1 o2 o3) := by
  have hadj : ((pos0.adjust_position
      (event.quantity * (if event.is_buy then 1 else -1)) event.price).1).current_price
        = pos0.current_price := adjust_position_current_price pos0 _ _
  intro kv hkv hkey
  rcases fillCore_positions_cases s event pos0 pe wl ws o1 o2 o3 with hp | hp
  · rw [hp] at hkv
    rcases mem_setPos s.positions event.symbol _ kv hkv with h | h
    · exact hK kv h hkey
    · rw [h] at hkey ⊢
      exact hadj.trans (hpos0 hkey)
  · rw [hp] at hkv
    have hkv2 := mem_erasePos (setPos s.positions event.symbol _) event.symbol kv hkv
    rcases mem_setPos s.positions event.symbol _ kv hkv2 with h | h
    · exact hK kv h hkey
    · rw [h] at hkey ⊢
      exact hadj.trans (hpos0 hkey)

lemma marksAtZero_update_position_on_fill_lockfree (sym : String)
    (s : PositionManager) (event : TradeExecutionEvent) (hK : marksAtZero sym s) :
    marksAtZero sym (s.update_position_on_fill_lockfree event) := by
  cases hfp : s.findPosition event.symbol with
  | none =>
    simp only [PositionManager.update_position_on_fill_lockfree, hfp]
    exact marksAtZero_fillCore sym s event _ false false false 0 0 0 hK (fun _ => rfl)
  | some p =>
    simp only [PositionManager.update_position_on_fill_lockfree, hfp]
    exact marksAtZero_fillCore sym s event p true _ _ _ _ _ hK
      (fun hsym => hK (event.symbol, p) (lookup_mem s.positions event.symbol p hfp) hsym)

/-- Any fill — including further fills for `sym` itself — keeps every `sym`
entry marked at price `0`: `adjust_position` re-marks the position at its
own (zero) `current_price`. -/
lemma marksAtZero_on_trade_execution (sym : String) (s : PositionManager)
    (event : TradeExecutionEvent) (hK : marksAtZero sym s) :
    marksAtZero sym (s.on_trade_execution event) := by
  simp only [PositionManager.on_trade_execution]
  exact marksAtZero_update_position_on_fill_lockfree sym _ event hK

/-- A market bar for another symbol keeps every `sym` entry marked at `0`. -/
lemma marksAtZero_on_market_data (sym : String) (s : PositionManager)
    (event : MarketDataEvent) (hne : event.symbol ≠ sym) (hK : marksAtZero sym s) :
    marksAtZero sym (s.on_market_data event) := by
  intro kv hkv hkey
  cases hfp : s.findPosition event.symbol with
  | none =>
    rw [on_market_data_positions_none s event hfp] at hkv
    exact hK kv hkv hkey
  | some pos =>
    rw [on_market_data_positions_some s event pos hfp] at hkv
    rcases mem_setPos s.positions event.symbol _ kv hkv with h | h
    · exact hK kv h hkey
    · rw [h] at hkey
      exact absurd hkey hne

lemma marksAtZero_applyPMOp (sym : String) (s : PositionManager) (op : PMOp)
    (hop : ¬ (op.isBar ∧ op.symbol = sym)) (hK : marksAtZero sym s) :
    marksAtZero sym (applyPMOp s op) := by
  cases op with
  | fill e => exact marksAtZero_on_trade_execution sym s e hK
  | bar e =>
    have hne : e.symbol ≠ sym := fun h => hop ⟨True.intro, h⟩
    exact marksAtZero_on_market_data sym s e hne hK

/-- As long as no market bar for `sym` arrives, every `sym` entry stays
marked at price `0` — even across further fills for `sym`. -/
lemma runPMOps_marksAtZero (sym : String) (ops : List PMOp) (s : PositionManager)
    (hops : ∀ op ∈ ops, ¬ (op.isBar ∧ op.symbol = sym)) (hK : marksAtZero sym s) :
    marksAtZero sym (runPMOps ops s) := by
  induction ops generalizing s with
  | nil => exact hK
  | cons op rest ih =>
    exact ih (applyPMOp s op) (fun o ho => hops o (List.mem_cons_of_mem _ ho))
      (marksAtZero_applyPMOp sym s op (hops op (List.mem_cons_self _ _)) hK)

/-- A sequence of events that never names `sym` leaves the map entry for
`sym` untouched. -/
lemma runPMOps_lookup_other (sym : String) (ops : List PMOp) (s : PositionManager)
    (hops : ∀ op ∈ ops, op.symbol ≠ sym) :
    (runPMOps ops s).findPosition sym = s.findPosition sym := by
  induction ops generalizing s with
  | nil => rfl
  | cons op rest ih =>
    have h1 : (applyPMOp s op).findPosition sym = s.findPosition sym := by
      cases op with
      | fill e =>
        exact on_trade_execution_lookup_other s e sym (hops _ (List.mem_cons_self _ _))
      | bar e =>
        exact on_market_data_lookup_other s e sym (hops _ (List.mem_cons_self _ _))
    calc (runPMOps (op :: rest) s).findPosition sym
        = (runPMOps rest (applyPMOp s op)).findPosition sym := rfl
      _ = (applyPMOp s op).findPosition sym :=
          ih (applyPMOp s op) (fun o ho => hops o (List.mem_cons_of_mem _ ho))
      _ = s.findPosition sym := h1

lemma update_position_on_fill_lockfree_fresh (s : PositionManager)
    (event : TradeExecutionEvent) (hnone : s.findPosition event.symbol = none)
    (h : ¬ ((Position.mkNew 0 0).adjust_position
        (event.quantity * (if event.is_buy then 1 else -1)) event.price).1.is_flat) :
    (s.update_position_on_fill_lockfree event).findPosition event.symbol
      = some (((Position.mkNew 0 0).adjust_position
          (event.quantity * (if event.is_buy then 1 else -1)) event.price).1) := by
  simp only [PositionManager.update_position_on_fill_lockfree, hnone]
  simp only [PositionManager.findPosition]
  rw [fillCore_positions_new s event (Position.mkNew 0 0) false false 0 0 0 h]
  exact lookup_setPos_self s.positions event.symbol _

lemma on_trade_execution_fresh (s : PositionManager) (event : TradeExecutionEvent)
    (hnone : s.findPosition event.symbol = none)
    (h : ¬ ((Position.mkNew 0 0).adjust_position
        (event.quantity * (if event.is_buy then 1 else -1)) event.price).1.is_flat) :
    (s.on_trade_execution event).findPosition event.symbol
      = some (((Position.mkNew 0 0).adjust_position
          (event.quantity * (if event.is_buy then 1 else -1)) event.price).1) := by
  simp only [PositionManager.on_trade_execution]
  exact update_position_on_fill_lockfree_fresh _ event hnone h

/-- C10 (amended): for every fill with quantity above the flatness tolerance
`1e-8` applied to any manager with no prior position for the symbol (which
is the state after any history with no prior fill for it — a bar for a
symbol without a position is a no-op), the freshly created position has
mark price 0, unrealized PnL `(0 - fill.price) * signed_quantity`, and
market value 0; these values stay exactly so under any further events that
do not name the symbol, and the mark price and market value stay 0 under
any further events — including more fills for the symbol — until the next
market bar for the symbol arrives. -/
theorem c10_fresh_fill_marks_at_zero (s : PositionManager) (q price comm : ℚ)
    (sym : String) (is_buy : Bool) (hq : eps < q)
    (hnone : s.findPosition sym = none) :
    ∃ p, (s.on_trade_execution
          { symbol := sym, quantity := q, price := price, commission := comm,
            is_buy := is_buy }).findPosition sym = some p ∧
      p.current_price = 0 ∧
      p.unrealized_pnl = (0 - price) * (q * (if is_buy then 1 else -1)) ∧
      p.get_market_value = 0 ∧
      (∀ ops : List PMOp, (∀ op ∈ ops, PMOp.symbol op ≠ sym) →
        (runPMOps ops (s.on_trade_execution
          { symbol := sym, quantity := q, price := price, commission := comm,
            is_buy := is_buy })).findPosition sym = some p) ∧
      (∀ ops : List PMOp, (∀ op ∈ ops, ¬ (PMOp.isBar op ∧ PMOp.symbol op = sym)) →
        ∀ p2, (runPMOps ops (s.on_trade_execution
            { symbol := sym, quantity := q, price := price, commission := comm,
              is_buy := is_buy })).findPosition sym = some p2 →
          p2.current_price = 0 ∧ p2.get_market_value = 0) := by
  have hq0 : 0 < q := lt_trans (by norm_num [eps]) hq
  have habs : |q * (if is_buy then 1 else -1)| = q := by
    cases is_buy <;> simp [abs_of_pos hq0]
  have had := adjust_position_from_zero (q * (if is_buy then 1 else -1)) price
      (by rw [habs]; exact hq)
  have hflat : ¬ (((Position.mkNew 0 0).adjust_position
      (q * (if is_buy then 1 else -1)) price).1.is_flat) := by
    rw [had]
    simp only [Position.is_flat, not_lt]
    show eps ≤ |q * (if is_buy then 1 else -1)|
    rw [habs]
    exact le_of_lt hq
  have hfind := on_trade_execution_fresh s
      { symbol := sym, quantity := q, price := price, commission := comm,
        is_buy := is_buy } hnone hflat
  have hK0 : marksAtZero sym s := by
    intro kv hkv hkey
    exact absurd hkey (lookup_none_forall s.positions sym hnone kv hkv)
  have hK1 : marksAtZero sym (s.on_trade_execution
      { symbol := sym, quantity := q, price := price, commission := comm,
        is_buy := is_buy }) :=
    marksAtZero_on_trade_execution sym s _ hK0
  refine ⟨((Position.mkNew 0 0).adjust_position
      (q * (if is_buy then 1 else -1)) price).1, hfind, ?_, ?_, ?_, ?_, ?_⟩
  · rw [had]
  · rw [had]
  · rw [had]
    simp [Position.get_market_value]
  · intro ops hops
    rw [runPMOps_lookup_other sym ops _ hops]
    exact hfind
  · intro ops hops p2 hp2
    have hK2 := runPMOps_marksAtZero sym ops _ hops hK1
    have hp2m : (runPMOps ops (s.on_trade_execution
        { symbol := sym, quantity := q, price := price, commission := comm,
          is_buy := is_buy })).positions.lookup sym = some p2 := hp2
    have hcur : p2.current_price = 0 :=
      hK2 (sym, p2) (lookup_mem _ sym p2 hp2m) rfl
    refine ⟨hcur, ?_⟩
    simp [Position.get_market_value, hcur]

/-- Witness for `c10_fresh_fill_marks_at_zero`: buy 100 at 150 (commission
5) on a fresh manager with capital 100000 (its position map holds no entry
for "AAPL"). -/
theorem c10_fresh_fill_marks_at_zero_witness :
    (eps < (100 : ℚ)) ∧
    ((PositionManager.mkNew 100000).findPosition "AAPL" = none) ∧
    (∃ p, ((PositionManager.mkNew 100000).on_trade_execution
        { symbol := "AAPL", quantity := 100, price := 150, commission := 5,
          is_buy := true }).findPosition "AAPL" = some p ∧
      p.current_price = 0 ∧
      p.unrealized_pnl = (0 - 150) * (100 * (if true then 1 else -1)) ∧
      p.get_market_value = 0 ∧
      (∀ ops : List PMOp, (∀ op ∈ ops, PMOp.symbol op ≠ "AAPL") →
        (runPMOps ops ((PositionManager.mkNew 100000).on_trade_execution
          { symbol := "AAPL", quantity := 100, price := 150, commission := 5,
            is_buy := true })).findPosition "AAPL" = some p) ∧
      (∀ ops : List PMOp, (∀ op ∈ ops, ¬ (PMOp.isBar op ∧ PMOp.symbol op = "AAPL")) →
        ∀ p2, (runPMOps ops ((PositionManager.mkNew 100000).on_trade_execution
            { symbol := "AAPL", quantity := 100, price := 150, commission := 5,
              is_buy := true })).findPosition "AAPL" = some p2 →
          p2.current_price = 0 ∧ p2.get_market_value = 0)) :=
  ⟨by norm_num [eps], rfl,
   c10_fresh_fill_marks_at_zero (PositionManager.mkNew 100000) 100 150 5 "AAPL" true
     (by norm_num [eps]) rfl⟩


/-! ## C8: order state machine -/

/-- One step of the order state machine preserves the data invariants and
takes only transitions of `statusStep`. -/
lemma orderStepInv (o : Order) (op : OrderOp) (h : OrderInv o) :
    OrderInv (applyOrderOp o op) ∧ statusStep o.status (applyOrderOp o op).status := by
  obtain ⟨h0, h1, h2⟩ := h
  cases op with
  | cancel =>
    refine ⟨⟨h0, h1, ?_⟩, ?_⟩
    · intro hst
      simp [applyOrderOp] at hst
    · cases hs : o.status <;> simp [applyOrderOp, statusStep]
  | tryFill fq =>
    by_cases hc : o.quantity > 0 ∧ fq > 0
    · obtain ⟨hqpos, hfpos⟩ := hc
      have hmin0 : 0 ≤ min o.quantity fq := le_min (le_of_lt hqpos) (le_of_lt hfpos)
      have hminle : min o.quantity fq ≤ o.quantity := min_le_left _ _
      have hres : applyOrderOp o (OrderOp.tryFill fq) =
          { o with quantity := o.quantity - min o.quantity fq
                   status := if o.quantity - min o.quantity fq = 0
                             then OrderStatus.FULLY_FILLED
                             else OrderStatus.PARTIALLY_FILLED } := by
        simp [applyOrderOp, Order.try_fill, hqpos, hfpos]
      rw [hres]
      have hsne : o.status ≠ OrderStatus.FULLY_FILLED := by
        intro he
        rw [h2 he] at hqpos
        exact lt_irrefl 0 hqpos
      constructor
      · refine ⟨show (0:ℚ) ≤ o.quantity - min o.quantity fq from by linarith,
          show o.quantity - min o.quantity fq ≤ o.original_quantity from by linarith, ?_⟩
        intro hst
        by_cases hz : o.quantity - min o.quantity fq = 0
        · simpa using hz
        · simp only [if_neg hz] at hst
          exact absurd hst (by simp)
      · by_cases hz : o.quantity - min o.quantity fq = 0
        · simp only [if_pos hz]
          cases hs : o.status
          · simp [statusStep]
          · simp [statusStep]
          · exact absurd hs hsne
          · simp [statusStep]
        · simp only [if_neg hz]
          cases hs : o.status
          · simp [statusStep]
          · simp [statusStep]
          · exact absurd hs hsne
          · simp [statusStep]
    · have hres : applyOrderOp o (OrderOp.tryFill fq) = o := by
        simp only [applyOrderOp, Order.try_fill, if_neg hc]
      rw [hres]
      exact ⟨⟨h0, h1, h2⟩, Or.inl rfl⟩

/-- C8 counterexample: a `FULLY_FILLED` order transitions to `CANCELLED`.
An order for 50 units is fully filled by `try_fill 50` (status
`FULLY_FILLED`); it stays in the chain (removal is deferred), and a
subsequent `remove_order` marks it `CANCELLED` without checking the status —
the transition `FILLED → CANCELLED` that the claim rules out. -/
theorem c8_filled_order_becomes_cancelled :
    ((runOrderOps [OrderOp.tryFill 50] (Order.mkNew 1 Side.BUY 100 50 0)).status
      = OrderStatus.FULLY_FILLED) ∧
    ((runOrderOps [OrderOp.tryFill 50, OrderOp.cancel]
        (Order.mkNew 1 Side.BUY 100 50 0)).status = OrderStatus.CANCELLED) ∧
    (OrderStatus.FULLY_FILLED ≠ OrderStatus.CANCELLED) := by
  refine ⟨?_, ?_, by simp⟩ <;>
    norm_num [runOrderOps, applyOrderOp, Order.try_fill, Order.mkNew, List.foldl]

/-- C8 (amended): over every sequence of `try_fill` and cancel operations,
remaining quantity stays within `[0, original]` and `FULLY_FILLED` implies
remaining `= 0`; but the reachable one-step status transitions are those of
`statusStep`, which extends the claimed machine with `FULLY_FILLED →
CANCELLED` (`remove_order` cancels without checking the status) and
`CANCELLED → {PARTIALLY_FILLED, FULLY_FILLED}` (`try_fill` fills a
cancelled order with remaining quantity): `CANCELLED` is not terminal and
a filled order can be cancelled. -/
theorem c8_order_state_machine (q : ℚ) (ops : List OrderOp) (order_id : ℕ)
    (side : Side) (price : ℚ) (prio : ℕ) (hq : 0 ≤ q) :
    OrderInv (runOrderOps ops (Order.mkNew order_id side price q prio)) ∧
    (∀ op, statusStep (runOrderOps ops (Order.mkNew order_id side price q prio)).status
      (applyOrderOp (runOrderOps ops (Order.mkNew order_id side price q prio)) op).status) := by
  have hinit : OrderInv (Order.mkNew order_id side price q prio) := by
    refine ⟨hq, le_refl q, ?_⟩
    intro hst
    simp [Order.mkNew] at hst
  have main : ∀ (l : List OrderOp) (o : Order), OrderInv o → OrderInv (runOrderOps l o) := by
    intro l
    induction l with
    | nil => intro o h; exact h
    | cons op rest ih =>
        intro o h
        exact ih (applyOrderOp o op) (orderStepInv o op h).1
  exact ⟨main ops _ hinit, fun op => (orderStepInv _ op (main ops _ hinit)).2⟩

/-- Witness for `c8_order_state_machine`: an order for 50 units hit by a
partial fill of 20. -/
theorem c8_order_state_machine_witness :
    (0 ≤ (50 : ℚ)) ∧
    (OrderInv (runOrderOps [OrderOp.tryFill 20] (Order.mkNew 1 Side.BUY 100 50 0)) ∧
     ∀ op, statusStep
       (runOrderOps [OrderOp.tryFill 20] (Order.mkNew 1 Side.BUY 100 50 0)).status
       (applyOrderOp (runOrderOps [OrderOp.tryFill 20]
         (Order.mkNew 1 Side.BUY 100 50 0)) op).status) :=
  ⟨by norm_num,
   c8_order_state_machine 50 [OrderOp.tryFill 20] 1 Side.BUY 100 0 (by norm_num)⟩


/-! ## C6: price-time priority within a price level -/

/-- C6: price–time priority fails in the code.  Two sell orders for 30 at
price 100 are added in order (order 1 first, so with the smaller creation
priority); `add_order` inserts at the chain head, and `match_orders` walks
from the head, so an incoming buy for 30 entirely fills order 2 — the
NEWEST order — while the older order 1 still rests with its full remaining
quantity and `ACTIVE` status.  This contradicts the claimed "oldest matches
first" guarantee (and the `PriceLevel` doc comment "Time priority ordering
within the price level"). -/
theorem c6_newest_order_matched_first :
    (Order.mkNew 1 Side.SELL 100 30 1).priority
        < (Order.mkNew 2 Side.SELL 100 30 2).priority ∧
    (let lvl := (((PriceLevel.mkNew 100).add_order
          (Order.mkNew 1 Side.SELL 100 30 1)).1.add_order
          (Order.mkNew 2 Side.SELL 100 30 2)).1
     let m := lvl.match_orders Side.BUY 30 0 0
     m.1.chain = [⟨2, Side.SELL, 100, 0, 30, OrderStatus.FULLY_FILLED, 2⟩,
                  ⟨1, Side.SELL, 100, 30, 30, OrderStatus.ACTIVE, 1⟩] ∧
       m.2 = 30) := by
  constructor
  · norm_num [Order.mkNew]
  · norm_num [PriceLevel.mkNew, PriceLevel.add_order, PriceLevel.match_orders,
      matchChain, Order.try_fill, Order.is_active, is_opposite_side, Order.mkNew,
      eps]

/-! ## C7: book matching scenario -/

/-- C7: the literal book-matching scenario of spec scenario 5, verified
against the embedding.  An empty-book market buy of 100 matches 0 and is
not fully filled; after `add_order(1, SELL, 100.00, 30)` and
`add_order(2, SELL, 100.01, 80)`, a market buy of 100 matches 100 at
volume-weighted average `(30·100.00 + 70·100.01)/100` across 2 levels with
`fully_filled = true`, leaving order 1 `FULLY_FILLED` and order 2 with
remaining quantity 10. -/
theorem c7_book_matching_scenario :
    (((LockFreeOrderBook.mkNew (1 / 100)).match_market_order
        Side.BUY 100 0 0).1.matched_quantity = 0) ∧
    (((LockFreeOrderBook.mkNew (1 / 100)).match_market_order
        Side.BUY 100 0 0).1.fully_filled = false) ∧
    ((((LockFreeOrderBook.mkNew (1 / 100)).add_order 1 Side.SELL 100 30).2 = true) ∧
     ((((LockFreeOrderBook.mkNew (1 / 100)).add_order 1 Side.SELL 100 30).1.add_order
        2 Side.SELL (10001 / 100) 80).2 = true)) ∧
    (((((LockFreeOrderBook.mkNew (1 / 100)).add_order 1 Side.SELL 100 30).1.add_order
        2 Side.SELL (10001 / 100) 80).1.match_market_order Side.BUY 100 0 0).1
      = { matched_quantity := 100,
          average_price := (30 * 100 + 70 * (10001 / 100)) / 100,
          orders_matched := 2, fully_filled := true }) ∧
    (((((LockFreeOrderBook.mkNew (1 / 100)).add_order 1 Side.SELL 100 30).1.add_order
        2 Side.SELL (10001 / 100) 80).1.match_market_order
        Side.BUY 100 0 0).2.findOrder 1
      = some ⟨1, Side.SELL, 100, 0, 30, OrderStatus.FULLY_FILLED, 0⟩) ∧
    (((((LockFreeOrderBook.mkNew (1 / 100)).add_order 1 Side.SELL 100 30).1.add_order
        2 Side.SELL (10001 / 100) 80).1.match_market_order
        Side.BUY 100 0 0).2.findOrder 2
      = some ⟨2, Side.SELL, 10001 / 100, 10, 80, OrderStatus.PARTIALLY_FILLED, 1⟩) := by
  refine ⟨?_, ?_, ⟨?_, ?_⟩, ?_, ?_, ?_⟩ <;>
    norm_num [LockFreeOrderBook.mkNew, LockFreeOrderBook.add_order,
      LockFreeOrderBook.match_market_order, LockFreeOrderBook.findOrder,
      walkLevels, getOrCreateAsk, getOrCreateBid, applyAtPrice, round_to_tick,
      cppRound, PriceLevel.mkNew, PriceLevel.add_order, PriceLevel.match_orders,
      PriceLevel.has_orders, matchChain, Order.try_fill, Order.is_active,
      is_opposite_side, Order.mkNew, findInChain, Option.orElse, eps]


/-! ## C2: event lifecycle of the dispatch loop -/

lemma process_one_event_pool_releases (generate_signal : MarketDataEvent → Option EngineEvent)
    (simulate_order_execution : String → Option EngineEvent) (s : BacktestEngine) :
    (process_one_event generate_signal simulate_order_execution s).pool_releases
      = s.pool_releases := by
  cases hq : s.queue with
  | nil => simp [process_one_event, hq]
  | cons e rest => cases e <;> simp [process_one_event, hq]

/-- C2: the dispatch loop never releases events back to their pools.
`BacktestEngine::process_events` dequeues and dispatches each event but its
body contains no `EventPool::destroy_event` call, so the pool-release count
is invariant under any number of loop iterations, for every strategy and
executor; in particular one published and dispatched market-data event has
been released 0 times, not exactly once as the claim requires. -/
theorem c2_dispatched_events_never_released :
    (∀ (generate_signal : MarketDataEvent → Option EngineEvent)
       (simulate_order_execution : String → Option EngineEvent)
       (n : ℕ) (s : BacktestEngine),
       (process_events generate_signal simulate_order_execution n s).pool_releases
         = s.pool_releases) ∧
    (let s0 : BacktestEngine :=
       { queue := [EngineEvent.marketData { symbol := "AAPL", close := 100 }]
         position_manager := PositionManager.mkNew 100000
         events_dispatched := 0, pool_releases := 0 }
     (process_events (fun _ => none) (fun _ => none) 1 s0).events_dispatched = 1 ∧
     (process_events (fun _ => none) (fun _ => none) 1 s0).pool_releases = 0 ∧
     (1 : ℕ) ≠ 0) := by
  constructor
  · intro generate_signal simulate_order_execution n
    induction n with
    | zero => intro s; rfl
    | succ k ih =>
        intro s
        rw [process_events, ih]
        exact process_one_event_pool_releases generate_signal simulate_order_execution s
  · refine ⟨?_, ?_, by norm_num⟩ <;>
      simp [process_events, process_one_event]

/-! ## C9: ring-buffer construction consistency -/

/-- C9: the constructor applies `Config::validate` only after the member
initializer list has already derived `buffer_mask_` and the slot-vector
size from the unvalidated `buffer_size`.  For the non-power-of-two request
1000, `capacity()` reports the validated 1024, but the mask is 999 (not
1023) and the slot array holds 1000 slots (not 1024): the mask, the storage
and the reported capacity are inconsistent, contradicting the claim. -/
theorem c9_constructor_validates_too_late :
    ((DisruptorQueue_construct 1000).capacity = 1024) ∧
    ((DisruptorQueue_construct 1000).buffer_mask = 999) ∧
    ((DisruptorQueue_construct 1000).buffer_slots = 1000) ∧
    ((DisruptorQueue_construct 1000).buffer_mask
      ≠ (DisruptorQueue_construct 1000).capacity - 1) ∧
    ((DisruptorQueue_construct 1000).buffer_slots
      ≠ (DisruptorQueue_construct 1000).capacity) := by
  refine ⟨?_, ?_, ?_, ?_, ?_⟩ <;> decide



/-! ## C3: exactly-once in-order delivery of the ring buffer -/

lemma land_two_pow_sub_one (n k : ℕ) : n &&& (2 ^ k - 1) = n % 2 ^ k := by
  apply Nat.eq_of_testBit_eq
  intro i
  simp [Nat.testBit_and, Nat.testBit_two_pow_sub_one, Nat.testBit_mod_two_pow]

lemma slotIndex_eq_mod (k : ℕ) (s : ℤ) :
    slotIndex (2 ^ k) s = s.toNat % 2 ^ k := by
  unfold slotIndex
  rw [land_two_pow_sub_one]

lemma slotIndex_ne (k a b : ℕ) (hab : a < b) (hlt : b - a < 2 ^ k) :
    slotIndex (2 ^ k) (a : ℤ) ≠ slotIndex (2 ^ k) (b : ℤ) := by
  intro h
  rw [slotIndex_eq_mod, slotIndex_eq_mod, Int.toNat_natCast, Int.toNat_natCast] at h
  have hdvd : 2 ^ k ∣ b - a := (Nat.modEq_iff_dvd' (le_of_lt hab)).mp h
  have hpos : 0 < b - a := Nat.sub_pos_of_lt hab
  exact absurd (Nat.le_of_dvd hpos hdvd) (not_le.mpr hlt)

lemma ringStep_inv {E : Type} (k : ℕ) (t : RingTrace E) (op : RingOp E)
    (h : RingInv k t) : RingInv k (ringStep (2 ^ k) t op) := by
  obtain ⟨hcur, hcon, hle, hwin, htake, hslots⟩ := h
  have hcpos : 0 < 2 ^ k := pow_pos (by norm_num) k
  cases op with
  | pub e =>
    by_cases hfull : t.ring.cursor + 1 - ((2 ^ k : ℕ) : ℤ) > t.ring.consumer_sequence
    · have hid : ringStep (2 ^ k) t (RingOp.pub e) = t := by
        simp only [ringStep, try_publish, if_pos hfull]
      rw [hid]
      exact ⟨hcur, hcon, hle, hwin, htake, hslots⟩
    · have hstep : ringStep (2 ^ k) t (RingOp.pub e) =
        { ring := { cursor := t.ring.cursor + 1
                    consumer_sequence := t.ring.consumer_sequence
                    buffer := fun i =>
                      if i = slotIndex (2 ^ k) (t.ring.cursor + 1) then some e
                      else t.ring.buffer i }
          published := t.published ++ [e], consumed := t.consumed } := by
        simp only [ringStep, try_publish, if_neg hfull]
      have hroomZ : (t.published.length : ℤ) + 1
          ≤ (t.consumed.length : ℤ) + ((2 ^ k : ℕ) : ℤ) := by
        rw [hcur, hcon] at hfull
        omega
      have hroomN : t.published.length + 1 ≤ t.consumed.length + 2 ^ k := by
        exact_mod_cast hroomZ
      have hcurP : t.ring.cursor + 1 = ((t.published.length : ℕ) : ℤ) := by
        rw [hcur]; ring
      rw [hstep]
      refine ⟨?_, hcon, ?_, ?_, ?_, ?_⟩
      · dsimp only
        simp only [List.length_append, List.length_singleton]
        push_cast
        omega
      · dsimp only
        simp only [List.length_append, List.length_singleton]
        omega
      · dsimp only
        simp only [List.length_append, List.length_singleton]
        omega
      · dsimp only
        rw [List.take_append_of_le_length hle]
        exact htake
      · intro i hi hilen
        dsimp only at hi hilen ⊢
        simp only [List.length_append, List.length_singleton] at hilen
        by_cases hiP : i = t.published.length
        · subst hiP
          rw [hcurP]
          simp [List.getElem?_concat_length]
        · have hilt : i < t.published.length := by omega
          have hdist : t.published.length - i < 2 ^ k := by omega
          have hne := slotIndex_ne k i t.published.length hilt hdist
          rw [hcurP]
          simp only [if_neg hne]
          rw [hslots i hi hilt, List.getElem?_append, if_pos hilt]
  | con =>
    by_cases hempty : t.ring.cursor < t.ring.consumer_sequence + 1
    · have hid : ringStep (2 ^ k) t RingOp.con = t := by
        simp only [ringStep, try_consume, if_pos hempty]
      rw [hid]
      exact ⟨hcur, hcon, hle, hwin, htake, hslots⟩
    · have hCP : t.consumed.length < t.published.length := by
        rw [hcur, hcon] at hempty
        omega
      have hconC : t.ring.consumer_sequence + 1 = ((t.consumed.length : ℕ) : ℤ) := by
        rw [hcon]; ring
      have hbuf : t.ring.buffer (slotIndex (2 ^ k) (t.ring.consumer_sequence + 1))
          = some (t.published.get ⟨t.consumed.length, hCP⟩) := by
        rw [hconC, hslots t.consumed.length (le_refl _) hCP,
          List.getElem?_eq_getElem hCP]
        rfl
      have hstep : ringStep (2 ^ k) t RingOp.con =
        { ring := { cursor := t.ring.cursor
                    consumer_sequence := t.ring.consumer_sequence + 1
                    buffer := fun i =>
                      if i = slotIndex (2 ^ k) (t.ring.consumer_sequence + 1) then none
                      else t.ring.buffer i }
          published := t.published
          consumed := t.consumed ++ [t.published.get ⟨t.consumed.length, hCP⟩] } := by
        simp only [ringStep, try_consume, if_neg hempty, hbuf]
      rw [hstep]
      refine ⟨hcur, ?_, ?_, ?_, ?_, ?_⟩
      · dsimp only
        simp only [List.length_append, List.length_singleton]
        push_cast
        omega
      · dsimp only
        simp only [List.length_append, List.length_singleton]
        omega
      · dsimp only
        simp only [List.length_append, List.length_singleton]
        omega
      · dsimp only
        simp only [List.length_append, List.length_singleton]
        rw [List.take_succ, List.getElem?_eq_getElem hCP]
        rw [← htake]
        rfl
      · intro i hi hilen
        dsimp only at hi hilen ⊢
        simp only [List.length_append, List.length_singleton] at hi
        have higt : t.consumed.length < i := by omega
        have hdist : i - t.consumed.length < 2 ^ k := by omega
        have hne := slotIndex_ne k t.consumed.length i higt hdist
        rw [hconC]
        simp only [if_neg (Ne.symm hne)]
        exact hslots i (le_of_lt higt) hilen

lemma ringRun_inv {E : Type} (k : ℕ) (ops : List (RingOp E)) (t : RingTrace E)
    (h : RingInv k t) : RingInv k (ringRun (2 ^ k) ops t) := by
  induction ops generalizing t with
  | nil => exact h
  | cons op rest ih => exact ih _ (ringStep_inv k t op h)

lemma ringInv_mkNew (E : Type) (k : ℕ) : RingInv k (RingTrace.mkNew E) := by
  refine ⟨by norm_num [RingTrace.mkNew, RingState.mkNew],
    by norm_num [RingTrace.mkNew, RingState.mkNew], le_refl _, by simp [RingTrace.mkNew],
    rfl, ?_⟩
  intro i hi hilen
  simp [RingTrace.mkNew] at hilen

lemma stress_run (n : ℕ) :
    ringRun 1024 (stressOps n) (RingTrace.mkNew ℕ) =
      { ring := { cursor := (n : ℤ) - 1, consumer_sequence := (n : ℤ) - 1,
                  buffer := fun _ => none },
        published := List.range n, consumed := List.range n } := by
  induction n with
  | zero => rfl
  | succ m ih =>
      have hops : stressOps (m + 1) = stressOps m ++ [RingOp.pub m, RingOp.con] := by
        simp [stressOps, List.range_succ]
      rw [hops]
      unfold ringRun
      rw [List.foldl_append]
      rw [show List.foldl (ringStep 1024) (RingTrace.mkNew ℕ) (stressOps m)
            = ringRun 1024 (stressOps m) (RingTrace.mkNew ℕ) from rfl, ih]
      rw [List.foldl_cons, List.foldl_cons, List.foldl_nil]
      have h1 : ringStep 1024
          ({ ring := { cursor := (m : ℤ) - 1, consumer_sequence := (m : ℤ) - 1,
                       buffer := fun _ => none },
             published := List.range m, consumed := List.range m } : RingTrace ℕ)
          (RingOp.pub m) =
          { ring := { cursor := (m : ℤ) - 1 + 1, consumer_sequence := (m : ℤ) - 1,
                      buffer := fun i => if i = slotIndex 1024 ((m : ℤ) - 1 + 1)
                                         then some m else none },
            published := List.range m ++ [m], consumed := List.range m } := by
        simp only [ringStep, try_publish]
        rw [if_neg (by push_cast; omega)]
      rw [h1]
      have h2 : ringStep 1024
          ({ ring := { cursor := (m : ℤ) - 1 + 1, consumer_sequence := (m : ℤ) - 1,
                       buffer := fun i => if i = slotIndex 1024 ((m : ℤ) - 1 + 1)
                                          then some m else none },
             published := List.range m ++ [m], consumed := List.range m } : RingTrace ℕ)
          RingOp.con =
          { ring := { cursor := (m : ℤ) - 1 + 1, consumer_sequence := (m : ℤ) - 1 + 1,
                      buffer := fun i => if i = slotIndex 1024 ((m : ℤ) - 1 + 1)
                                         then none
                                         else if i = slotIndex 1024 ((m : ℤ) - 1 + 1)
                                              then some m else none },
            published := List.range m ++ [m], consumed := List.range m ++ [m] } := by
        simp only [ringStep, try_consume]
        rw [if_neg (show ¬ ((m : ℤ) - 1 + 1 < (m : ℤ) - 1 + 1) from lt_irrefl _)]
        simp
      rw [h2]
      simp only [RingTrace.mk.injEq, RingState.mk.injEq]
      refine ⟨⟨by push_cast; ring, by push_cast; ring, ?_⟩, ?_, ?_⟩
      · funext i
        by_cases hidx : i = slotIndex 1024 ((m : ℤ) - 1 + 1) <;> simp [hidx]
      · rw [List.range_succ]
      · rw [List.range_succ]

/-- C3: exactly-once, in-order delivery.  (1) For every capacity `2 ^ k`
and every sequence of `try_publish`/`try_consume` operations from a fresh
queue, the consumed history is exactly the prefix of the published history
of its own length: every consumed event is the event published at the same
position (publish order, no duplication, no loss).  (2) Spec scenario 6:
1,000,000 events pushed through a capacity-1024 queue with the consumer
keeping pace; the final state shows every publish succeeded
(`published = range 1000000`), every event was consumed exactly once and in
order (`consumed = range 1000000`), the buffer is fully drained, and the
final producer cursor and consumer sequence are both 999,999. -/
theorem c3_ring_buffer_exactly_once_in_order :
    (∀ (E : Type) (k : ℕ) (ops : List (RingOp E)),
      (ringRun (2 ^ k) ops (RingTrace.mkNew E)).consumed
        = (ringRun (2 ^ k) ops (RingTrace.mkNew E)).published.take
            (ringRun (2 ^ k) ops (RingTrace.mkNew E)).consumed.length) ∧
    (ringRun 1024 (stressOps 1000000) (RingTrace.mkNew ℕ) =
      { ring := { cursor := 999999, consumer_sequence := 999999,
                  buffer := fun _ => none },
        published := List.range 1000000, consumed := List.range 1000000 }) := by
  constructor
  · intro E k ops
    exact (ringRun_inv k ops _ (ringInv_mkNew E k)).2.2.2.2.1
  · have h := stress_run 1000000
    norm_num at h
    exact h


end Nexus
